import Mathlib

/-!
Verification of the `api-validator` repository: a shallow embedding of the
test-file generator (`src/testfile_generator.ts`, middle revision, the one the
claims cite) and of the queued-test execution engine (`test_helpers.ts`).

JavaScript values flowing through the code are JSON trees; `undefined` is
modelled as `Option.none` (`JsVal := Option Json`).  Property access that the
source performs on a possibly `null`/`undefined` receiver (which would throw a
`TypeError` at run time) is modelled in an `Option` monad whose `none` means
"the generator crashed"; optional chaining (`x?.k`) and accesses guarded by a
truthiness test are total.
-/

namespace ApiValidator

/-- JSON value tree, the shape of the acquired OpenAPI document and of all
example payloads.  Numbers are modelled as integers (every number appearing in
the analysed logic — status codes, example scalars — is integral). -/
inductive Json where
  | null : Json
  | bool : Bool → Json
  | num : Int → Json
  | str : String → Json
  | arr : List Json → Json
  | obj : List (String × Json) → Json
  deriving Repr, BEq

mutual

def Json.decEq : (a b : Json) → Decidable (a = b)
  | .null, .null => isTrue rfl
  | .bool x, .bool y =>
      if h : x = y then isTrue (by rw [h]) else isFalse (by intro hc; cases hc; exact h rfl)
  | .num x, .num y =>
      if h : x = y then isTrue (by rw [h]) else isFalse (by intro hc; cases hc; exact h rfl)
  | .str x, .str y =>
      if h : x = y then isTrue (by rw [h]) else isFalse (by intro hc; cases hc; exact h rfl)
  | .arr xs, .arr ys =>
      match Json.decEqList xs ys with
      | isTrue h => isTrue (by rw [h])
      | isFalse h => isFalse (by intro hc; cases hc; exact h rfl)
  | .obj xs, .obj ys =>
      match Json.decEqFields xs ys with
      | isTrue h => isTrue (by rw [h])
      | isFalse h => isFalse (by intro hc; cases hc; exact h rfl)
  | .null, .bool _ | .null, .num _ | .null, .str _ | .null, .arr _ | .null, .obj _
  | .bool _, .null | .bool _, .num _ | .bool _, .str _ | .bool _, .arr _ | .bool _, .obj _
  | .num _, .null | .num _, .bool _ | .num _, .str _ | .num _, .arr _ | .num _, .obj _
  | .str _, .null | .str _, .bool _ | .str _, .num _ | .str _, .arr _ | .str _, .obj _
  | .arr _, .null | .arr _, .bool _ | .arr _, .num _ | .arr _, .str _ | .arr _, .obj _
  | .obj _, .null | .obj _, .bool _ | .obj _, .num _ | .obj _, .str _ | .obj _, .arr _ =>
      isFalse (by intro hc; cases hc)

def Json.decEqList : (a b : List Json) → Decidable (a = b)
  | [], [] => isTrue rfl
  | [], _ :: _ => isFalse (by intro hc; cases hc)
  | _ :: _, [] => isFalse (by intro hc; cases hc)
  | x :: xs, y :: ys =>
      match Json.decEq x y with
      | isTrue h1 =>
          match Json.decEqList xs ys with
          | isTrue h2 => isTrue (by rw [h1, h2])
          | isFalse h2 => isFalse (by intro hc; cases hc; exact h2 rfl)
      | isFalse h1 => isFalse (by intro hc; cases hc; exact h1 rfl)

def Json.decEqFields : (a b : List (String × Json)) → Decidable (a = b)
  | [], [] => isTrue rfl
  | [], _ :: _ => isFalse (by intro hc; cases hc)
  | _ :: _, [] => isFalse (by intro hc; cases hc)
  | (k1, v1) :: xs, (k2, v2) :: ys =>
      if hk : k1 = k2 then
        match Json.decEq v1 v2 with
        | isTrue h1 =>
            match Json.decEqFields xs ys with
            | isTrue h2 => isTrue (by rw [hk, h1, h2])
            | isFalse h2 => isFalse (by intro hc; cases hc; exact h2 rfl)
        | isFalse h1 => isFalse (by intro hc; cases hc; exact h1 rfl)
      else isFalse (by intro hc; cases hc; exact hk rfl)

end

instance : DecidableEq Json := Json.decEq

/-- A JavaScript value that may also be `undefined` (`none`). -/
abbrev JsVal := Option Json

/-- JavaScript truthiness of a defined value. -/
def Json.truthy : Json → Bool
  | .null => false
  | .bool b => b
  | .num n => n != 0
  | .str s => s ≠ ""
  | .arr _ => true
  | .obj _ => true

/-- JavaScript truthiness (`undefined` is falsy). -/
def JsVal.truthy : JsVal → Bool
  | none => false
  | some j => j.truthy

/-- `typeof v === "object"` (true for objects, arrays and `null`). -/
def Json.typeofObject : Json → Bool
  | .null | .arr _ | .obj _ => true
  | _ => false

/-- `typeof v === "string"`. -/
def Json.typeofString : Json → Bool
  | .str _ => true
  | _ => false

/-- Stable insertion of `x` into `l`: `x` goes before the first element it
compares `le` to, so ties keep the earlier element first. -/
def insertLe {α : Type} (le : α → α → Bool) (x : α) : List α → List α
  | [] => [x]
  | y :: ys => if le x y then x :: y :: ys else y :: insertLe le x ys

/-- Stable sort by a boolean comparison; for a consistent comparator this is
the output JavaScript's (stable) `Array.prototype.sort` is specified to
produce. -/
def stableSortLe {α : Type} (le : α → α → Bool) : List α → List α
  | [] => []
  | x :: xs => insertLe le x (stableSortLe le xs)

theorem insertLe_perm {α : Type} (le : α → α → Bool) (x : α) (l : List α) :
    List.Perm (insertLe le x l) (x :: l) := by
  induction l with
  | nil => rfl
  | cons y ys ih =>
    rw [insertLe]
    split
    · rfl
    · exact (List.Perm.cons y ih).trans (List.Perm.swap x y ys)

theorem stableSortLe_perm {α : Type} (le : α → α → Bool) (l : List α) :
    List.Perm (stableSortLe le l) l := by
  induction l with
  | nil => rfl
  | cons x xs ih =>
    rw [stableSortLe]
    exact (insertLe_perm le x (stableSortLe le xs)).trans (List.Perm.cons x ih)

theorem mem_stableSortLe {α : Type} {le : α → α → Bool} {x : α} {l : List α} :
    x ∈ stableSortLe le l ↔ x ∈ l :=
  (stableSortLe_perm le l).mem_iff

theorem pairwise_insertLe {α : Type} {le : α → α → Bool} {P : α → Prop} {x : α} {l : List α}
    (total : ∀ a b, P a → P b → le a b = true ∨ le b a = true)
    (trans : ∀ a b c, P a → P b → P c → le a b = true → le b c = true → le a c = true)
    (hPx : P x) (hPl : ∀ a ∈ l, P a)
    (h : l.Pairwise (fun a b => le a b = true)) :
    (insertLe le x l).Pairwise (fun a b => le a b = true) := by
  induction l with
  | nil => simp [insertLe]
  | cons y ys ih =>
    rw [insertLe]
    rcases List.pairwise_cons.mp h with ⟨hy, hys⟩
    have hPy : P y := hPl y (by simp)
    have hPys : ∀ a ∈ ys, P a := fun a ha => hPl a (by simp [ha])
    split
    · rename_i hxy
      refine List.pairwise_cons.mpr ⟨?_, h⟩
      intro b hb
      rcases List.mem_cons.mp hb with rfl | hb
      · exact hxy
      · exact trans x y b hPx hPy (hPys b hb) hxy (hy b hb)
    · rename_i hxy
      refine List.pairwise_cons.mpr ⟨?_, ih hPys hys⟩
      intro b hb
      have hb' := (insertLe_perm le x ys).mem_iff.mp hb
      rcases List.mem_cons.mp hb' with rfl | hb'
      · rcases total b y hPx hPy with h1 | h1
        · exact absurd h1 (by simpa using hxy)
        · exact h1
      · exact hy b hb'

theorem pairwise_stableSortLe {α : Type} {le : α → α → Bool} {P : α → Prop} {l : List α}
    (total : ∀ a b, P a → P b → le a b = true ∨ le b a = true)
    (trans : ∀ a b c, P a → P b → P c → le a b = true → le b c = true → le a c = true)
    (hPl : ∀ a ∈ l, P a) :
    (stableSortLe le l).Pairwise (fun a b => le a b = true) := by
  induction l with
  | nil => simp [stableSortLe]
  | cons x xs ih =>
    rw [stableSortLe]
    refine pairwise_insertLe total trans (hPl x (by simp)) ?_ (ih ?_)
    · intro a ha
      exact hPl a (by simp [mem_stableSortLe.mp ha])
    · intro a ha
      exact hPl a (by simp [ha])

/-- Digit-string to number (the computable core of `String.toNat?`). -/
def strToNat? (s : String) : Option Nat :=
  if s.data ≠ [] ∧ s.data.all Char.isDigit then
    some (s.data.foldl (fun a c => a * 10 + (c.toNat - 48)) 0)
  else none

/-- Canonical array-index strings, the keys JavaScript enumerates first and the
only string keys that index into an array. -/
def isIndexKey (s : String) : Bool :=
  match strToNat? s with
  | some n => toString n = s
  | none => false

/-- `Object.keys` order for plain objects: integer-like keys ascending, then
the remaining keys in insertion order. -/
def jsObjKeys (fs : List (String × Json)) : List String :=
  let ks := fs.map Prod.fst
  stableSortLe (fun a b => ((strToNat? a).getD 0) ≤ ((strToNat? b).getD 0)) (ks.filter isIndexKey)
    ++ ks.filter (fun k => ¬ isIndexKey k)

/-- `Object.keys` on a non-nullish value. -/
def Json.keys : Json → List String
  | .obj fs => jsObjKeys fs
  | .arr es => (List.range es.length).map toString
  | .str s => (List.range s.length).map toString
  | _ => []

/-- `Object.keys` where callers have already established the receiver is
truthy (so never `null`/`undefined`, which would throw). -/
def JsVal.keys : JsVal → List String
  | none => []
  | some j => j.keys

/-- First field with a given key (JavaScript objects cannot carry duplicate
keys, so documents are taken with distinct keys per object). -/
def lookupField (fs : List (String × Json)) (k : String) : JsVal :=
  (fs.find? (fun kv => kv.1 = k)).map Prod.snd

/-- Property read `j[k]` on a non-nullish receiver: object field, array index
(or `length`), string index (or `length`); other primitives have no own
properties. -/
def Json.get_ : Json → String → JsVal
  | .obj fs, k => lookupField fs k
  | .arr es, k =>
      if k = "length" then some (.num es.length)
      else if isIndexKey k then (es.get? ((strToNat? k).getD 0)).map id else none
  | .str s, k =>
      if k = "length" then some (.num s.length)
      else if isIndexKey k then (s.toList.get? ((strToNat? k).getD 0)).map (fun c => .str (String.mk [c])) else none
  | _, _ => none

/-- Optional chaining `x?.k` (also used for plain accesses that the source
guards with a truthiness test, where the two coincide). -/
def JsVal.oget : JsVal → String → JsVal
  | none, _ => none
  | some .null, _ => none
  | some j, k => j.get_ k

/-- Unguarded access `x.k`: throws (`none`) when `x` is nullish. -/
def JsVal.sget : JsVal → String → Option JsVal
  | none, _ => none
  | some .null, _ => none
  | some j, k => some (j.get_ k)

/-- `Object.entries` order (mirrors `Json.keys`). -/
def Json.entries : Json → List (String × Json)
  | .obj fs =>
      stableSortLe (fun a b => ((strToNat? a.1).getD 0) ≤ ((strToNat? b.1).getD 0))
          (fs.filter (fun kv => isIndexKey kv.1))
        ++ fs.filter (fun kv => ¬ isIndexKey kv.1)
  | .arr es => es.enum.map (fun p => (toString p.1, p.2))
  | .str s => s.toList.enum.map (fun p => (toString p.1, Json.str (String.mk [p.2])))
  | _ => []

/-- `Object.entries` on a value that may be nullish (throws on `null`). -/
def jsEntries? : JsVal → Option (List (String × Json))
  | none => none
  | some .null => none
  | some j => some j.entries

/-- `a || b` (keeps `a` when truthy). -/
def jsOr (a b : JsVal) : JsVal := if a.truthy then a else b

/-- `a ?? b` for the `exampleBody ?? {}` sites: nullish-coalescing onto the
empty object. -/
def coalesceObj (v : JsVal) : Json :=
  match v with
  | none => .obj []
  | some .null => .obj []
  | some j => j

/- ------------------------------------------------------------------
   Reference Resolver (`resolveRef`, testfile_generator.ts lines 415-424)
   ------------------------------------------------------------------ -/

/-- The indexing loop of `resolveRef`: `cur = cur[p]` guarded by
`cur && typeof cur === 'object'`; a nullish or primitive `cur` with segments
remaining yields `undefined`, as does a missing segment. -/
def walkSegs : Json → List String → JsVal
  | cur, [] => some cur
  | cur, p :: rest =>
      if cur.truthy ∧ cur.typeofObject then
        match cur.get_ p with
        | some v => walkSegs v rest
        | none => none
      else none

/-- `s.startsWith(pre)`. -/
def strStartsWith (s pre : String) : Bool := pre.data.isPrefixOf s.data

/-- `s.split(sep)` for a one-character separator (the only kind the code
uses). -/
def splitOnChar (sep : Char) : List Char → List (List Char)
  | [] => [[]]
  | c :: rest =>
      if c = sep then [] :: splitOnChar sep rest
      else
        match splitOnChar sep rest with
        | h :: t => (c :: h) :: t
        | [] => [[c]]

def jsSplit (s : String) (sep : Char) : List String :=
  (splitOnChar sep s.data).map String.mk

/-- The segment list of a `#/...` ref: `ref.slice(2).split('/')`. -/
def refSegs (ref : String) : List String := jsSplit (String.mk (ref.data.drop 2)) '/'

/-- `resolveRef(obj, ref)`: refuse refs that do not start with `#/`, then walk
the `/`-separated segments. -/
def resolveRef (doc : Json) (ref : String) : JsVal :=
  if strStartsWith ref "#/" then walkSegs doc (refSegs ref) else none

/-- `Reaches doc segs v`: successively indexing `doc` by every segment (each
one present) ends at the subtree `v`. -/
inductive Reaches : Json → List String → Json → Prop where
  | nil (j : Json) : Reaches j [] j
  | cons {j w v : Json} {p : String} {rest : List String} :
      j.truthy → j.typeofObject → j.get_ p = some w → Reaches w rest v →
      Reaches j (p :: rest) v

theorem walkSegs_eq_some_iff_reaches (j : Json) (segs : List String) (v : Json) :
    walkSegs j segs = some v ↔ Reaches j segs v := by
  induction segs generalizing j with
  | nil =>
    simp only [walkSegs]
    constructor
    · intro h; cases Option.some.inj h; exact .nil _
    · rintro ⟨⟩; rfl
  | cons p rest ih =>
    simp only [walkSegs]
    constructor
    · intro h
      split at h
      · rename_i hg
        cases hw : j.get_ p with
        | none => rw [hw] at h; exact absurd h (by simp)
        | some w =>
          rw [hw] at h
          exact .cons hg.1 hg.2 hw ((ih w).mp h)
      · exact absurd h (by simp)
    · rintro ⟨⟩
      rename_i ht hty hw hr
      rw [if_pos ⟨ht, hty⟩, hw]
      exact (ih _).mpr hr

/- ------------------------------------------------------------------
   Execution engine (test_helpers.ts: `runQueuedTests` and `req`)
   ------------------------------------------------------------------ -/

/-- The run-scoped shared context (`export const ctx: Record<string, any>`). -/
abbrev Ctx := List (String × Json)

/-- `ctx[k]` (missing key reads as `undefined`). -/
def ctxGet (ctx : Ctx) (k : String) : JsVal := lookupField ctx k

mutual

/-- JavaScript `String(v)` coercion for a defined value. -/
def Json.jsToStr : Json → String
  | .null => "null"
  | .bool b => if b then "true" else "false"
  | .num n => toString n
  | .str s => s
  | .arr es => String.intercalate "," (jsToStrList es)
  | .obj _ => "[object Object]"

/-- Array elements stringify elementwise, `null` printing as the empty
string (JavaScript `Array.prototype.toString`). -/
def jsToStrList : List Json → List String
  | [] => []
  | .null :: rest => "" :: jsToStrList rest
  | e :: rest => e.jsToStr :: jsToStrList rest

end

/-- `String(v)` including `undefined`. -/
def JsVal.jsToStr : JsVal → String
  | none => "undefined"
  | some j => j.jsToStr

theorem length_dropWhile_le {α : Type} (p : α → Bool) (l : List α) :
    (l.dropWhile p).length ≤ l.length := by
  induction l with
  | nil => simp [List.dropWhile]
  | cons a l ih =>
    simp only [List.dropWhile]
    split
    · exact Nat.le_succ_of_le ih
    · simp

/-- `[a-z]` under the regex `i` flag. -/
def isLetter (c : Char) : Bool := ('a' ≤ c ∧ c ≤ 'z') ∨ ('A' ≤ c ∧ c ≤ 'Z')

/-- `\w`. -/
def isWordChar (c : Char) : Bool := isLetter c ∨ ('0' ≤ c ∧ c ≤ '9') ∨ c = '_'

/-- The global regex replace `url.replace(/\$([a-z]\w*)/gi, (_, k) => ctx[k])`:
left-to-right scan; at `$` followed by a letter, the greedy word-character run
names the token, and the replacement is the string coercion of `ctx[name]`
(so a missing name inserts the text `undefined`). -/
def substChars (ctx : Ctx) : List Char → List Char
  | [] => []
  | c :: rest =>
      if c = '$' then
        match rest with
        | [] => [c]
        | d :: rest' =>
            if isLetter d then
              (JsVal.jsToStr (ctxGet ctx (String.mk (d :: rest'.takeWhile isWordChar)))).toList
                ++ substChars ctx (rest'.dropWhile isWordChar)
            else c :: substChars ctx (d :: rest')
      else c :: substChars ctx rest
  termination_by l => l.length
  decreasing_by
    all_goals simp only [List.length_cons]
    all_goals first
      | omega
      | exact Nat.lt_succ_of_le (Nat.le_succ_of_le (length_dropWhile_le _ _))

/-- `$placeholder` interpolation of a queued case's url (line 57 of the
helpers). -/
def substPlaceholders (url : String) (ctx : Ctx) : String :=
  String.mk (substChars ctx url.toList)

/-- Line 59: `auth && ctx.token ? { Authorization: `Bearer ...` } : {}`. -/
def authHeaders (auth : Bool) (ctx : Ctx) : List (String × String) :=
  if auth ∧ (ctxGet ctx "token").truthy then
    [("Authorization", "Bearer " ++ (ctxGet ctx "token").jsToStr)]
  else []

/-- HTTP result shape `{ status, body }`. -/
structure ReqResponse where
  status : Int
  body : JsVal
  deriving Repr, DecidableEq

/-- Environment of one `req` call: the process-wide `BASE_URL`, whether
`new URL(path, baseUrl)` parses, and the outcome `fetch` produces (a
transport-level failure carries its error message). -/
inductive FetchOutcome where
  | success (status : Int) (body : JsVal)
  | failure (msg : String)
  deriving Repr, DecidableEq

structure ReqEnv where
  baseUrl : Option String
  urlOk : Bool
  fetch : FetchOutcome

/-- `methodPath.split(" ", 2)[0]` with default `""`. -/
def reqMethod (mp : String) : String := ((jsSplit mp ' ').take 2).getD 0 ""

/-- `methodPath.split(" ", 2)[1]` with default `""`. -/
def reqPath (mp : String) : String := ((jsSplit mp ' ').take 2).getD 1 ""

/-- Lines 137-146: headers handed to `fetch` — the caller's headers, plus
`content-type: application/json` when a serialisable body is present and no
content-type was given (header names compare case-insensitively). -/
def reqDispatchHeaders (body : JsVal) (headers : List (String × String)) : List (String × String) :=
  match body with
  | some j =>
      if j.truthy ∧ (j.typeofObject ∨ j.typeofString) then
        if headers.any (fun h => h.1.toLower = "content-type") then headers
        else headers ++ [("content-type", "application/json")]
      else headers
  | none => headers

/-- The fetch wrapper `req` (helpers lines 119-157).  `Except.error` is a
thrown exception (missing `BASE_URL`, malformed URL); transport failures are
caught and become the sentinel `{ status: 0, body: message }`. -/
def req (methodPath : String) (body : JsVal) (headers : List (String × String))
    (env : ReqEnv) : Except String ReqResponse :=
  let method := reqMethod methodPath
  let path := reqPath methodPath
  if method = "" ∨ path = "" then
    .ok ⟨0, some (.str ("Invalid methodPath: " ++ methodPath))⟩
  else
    match env.baseUrl with
    | none => .error "BASE_URL is not defined. Please define a BASE_URL at the top of your test file."
    | some _ =>
        if env.urlOk then
          match env.fetch with
          | .success st b => .ok ⟨st, b⟩
          | .failure msg => .ok ⟨0, some (.str msg)⟩
        else .error "Invalid URL"

/-- One queued declarative test case (`QueuedTest` tuple). -/
structure QueuedTest where
  url : String
  auth : Bool
  expStatus : Int
  body : JsVal
  save : Option (ReqResponse → Ctx → Ctx)

/-- What happened to one executed case. -/
structure CaseTrace where
  test : QueuedTest
  ctxBefore : Ctx
  path : String
  headers : List (String × String)
  res : ReqResponse
  passed : Bool
  ctxAfter : Ctx

inductive RunOutcome where
  | completed
  | failedCase
  | threw (msg : String)
  deriving Repr, DecidableEq

def applySave : Option (ReqResponse → Ctx → Ctx) → ReqResponse → Ctx → Ctx
  | none, _, ctx => ctx
  | some f, res, ctx => f res ctx

/-- The `for`-loop of `runQueuedTests`: substitute placeholders, build auth
headers, dispatch, compare status; a match runs the optional `save` callback
(which may rewrite the shared context) and continues, a mismatch stops the
whole run (`process.exit(1)`), a thrown `req` error also stops it. -/
def runQueuedAux (envs : Nat → ReqEnv) :
    List QueuedTest → Nat → Ctx → List CaseTrace × RunOutcome
  | [], _, _ => ([], .completed)
  | t :: rest, i, ctx =>
      let path := substPlaceholders t.url ctx
      let headers := authHeaders t.auth ctx
      match req path t.body headers (envs i) with
      | .error m => ([], .threw m)
      | .ok res =>
          if res.status = t.expStatus then
            let ctx' := applySave t.save res ctx
            let rr := runQueuedAux envs rest (i + 1) ctx'
            (⟨t, ctx, path, headers, res, true, ctx'⟩ :: rr.1, rr.2)
          else
            ([⟨t, ctx, path, headers, res, false, ctx⟩], .failedCase)

/-- `runQueuedTests()` on a queue, an oracle giving each dispatch's network
environment, and the initial shared context. -/
def runQueuedTests (tests : List QueuedTest) (envs : Nat → ReqEnv) (ctx : Ctx) :
    List CaseTrace × RunOutcome :=
  runQueuedAux envs tests 0 ctx

/- ------------------------------------------------------------------
   Test-file generator (testfile_generator.ts, middle revision)
   ------------------------------------------------------------------ -/

/-- The lower/upper pairs of the Latin alphabet (the only characters the
case conversions of HTTP method names touch). -/
def caseEquivPairs : List (Char × Char) :=
  [('a', 'A'), ('b', 'B'), ('c', 'C'), ('d', 'D'), ('e', 'E'), ('f', 'F'),
   ('g', 'G'), ('h', 'H'), ('i', 'I'), ('j', 'J'), ('k', 'K'), ('l', 'L'),
   ('m', 'M'), ('n', 'N'), ('o', 'O'), ('p', 'P'), ('q', 'Q'), ('r', 'R'),
   ('s', 'S'), ('t', 'T'), ('u', 'U'), ('v', 'V'), ('w', 'W'), ('x', 'X'),
   ('y', 'Y'), ('z', 'Z')]

/-- ASCII upper-casing of one character (`toUpperCase`). -/
def upChar (c : Char) : Char :=
  ((caseEquivPairs.find? (fun p => p.1 = c)).map Prod.snd).getD c

/-- ASCII lower-casing of one character (`toLowerCase`). -/
def lowChar (c : Char) : Char :=
  ((caseEquivPairs.find? (fun p => p.2 = c)).map Prod.fst).getD c

def jsToUpper (s : String) : String := String.mk (s.data.map upChar)

def jsToLower (s : String) : String := String.mk (s.data.map lowChar)

/-- `parseInt(s, 10)`: skip whitespace, optional sign, longest leading digit
run; `none` is `NaN`. -/
def parseIntJS (s : String) : Option Int :=
  let cs := s.data.dropWhile (fun c => c = ' ' ∨ c = '\t' ∨ c = '\n' ∨ c = '\r')
  let signed : Int × List Char :=
    match cs with
    | '-' :: r => (-1, r)
    | '+' :: r => (1, r)
    | _ => (1, cs)
  let digits := signed.2.takeWhile Char.isDigit
  if digits.isEmpty then none
  else some (signed.1 * ((digits.foldl (fun acc c => acc * 10 + (c.toNat - 48)) 0 : Nat) : Int))

/-- `aNum >= 400 && aNum < 600` (false for `NaN`). -/
def isErrStatus (s : String) : Bool :=
  match parseIntJS s with
  | some n => 400 ≤ n ∧ n < 600
  | none => false

/-- `statusLe a b` iff the `sortStatusCodes` comparator orders `a` not after
`b` (comparator result `<= 0`; a `NaN` comparison counts as equal). -/
def statusLe (a b : String) : Bool :=
  if isErrStatus a ∧ ¬ isErrStatus b then true
  else if ¬ isErrStatus a ∧ isErrStatus b then false
  else
    match parseIntJS a, parseIntJS b with
    | some x, some y => x ≤ y
    | _, _ => true

/-- `sortStatusCodes` (lines 629-639): a stable sort under the comparator —
error-range codes first, numeric ascending inside each group. -/
def sortStatusCodes (codes : List String) : List String := stableSortLe statusLe codes

/-- `Object.keys(detail.responses || {})` when `detail` is known truthy. -/
def statusKeysT (detail : JsVal) : List String :=
  (jsOr (detail.oget "responses") (some (.obj []))).keys

/-- `Object.keys(detail.responses || {})` for a raw entries value (a `null`
operation object makes the property read throw). -/
def statusKeys? (detail : Json) : Option (List String) := do
  let r ← JsVal.sget (some detail) "responses"
  pure (jsOr r (some (.obj []))).keys

def jsEntriesT : JsVal → List (String × Json)
  | none => []
  | some j => j.entries

def JsVal.typeofObject : JsVal → Bool
  | some j => j.typeofObject
  | none => false

/-- `forEach`/iteration in the `Option` crash monad (structural, so concrete
instances evaluate definitionally). -/
def mapMO {α β : Type} (f : α → Option β) : List α → Option (List β)
  | [] => some []
  | a :: l => do
      let b ← f a
      let bs ← mapMO f l
      pure (b :: bs)

theorem mapMO_eq_forall₂ {α β : Type} {f : α → Option β} :
    ∀ {l : List α} {out : List β},
      mapMO f l = some out ↔ List.Forall₂ (fun a b => f a = some b) l out := by
  intro l
  induction l with
  | nil =>
    intro out
    constructor
    · intro h; cases Option.some.inj h; exact .nil
    · rintro ⟨⟩; rfl
  | cons a l ih =>
    intro out
    rw [mapMO]
    constructor
    · intro h
      cases hb : f a with
      | none => rw [hb] at h; cases h
      | some b =>
        rw [hb] at h
        simp only [Option.bind_eq_bind, Option.some_bind] at h
        cases hbs : mapMO f l with
        | none => rw [hbs] at h; cases h
        | some bs =>
          rw [hbs] at h
          simp only [Option.bind_eq_bind, Option.some_bind, Option.pure_def] at h
          cases Option.some.inj h
          exact .cons hb (ih.mp hbs)
    · rintro ⟨⟩
      rename_i b bs hb hbs
      rw [hb]
      simp only [Option.bind_eq_bind, Option.some_bind]
      rw [ih.mpr hbs]
      rfl

theorem mapMO_mem {α β : Type} {f : α → Option β} :
    ∀ {l : List α} {out : List β},
      mapMO f l = some out → ∀ x ∈ out, ∃ a ∈ l, f a = some x := by
  intro l
  induction l with
  | nil =>
    intro out h x hx
    cases Option.some.inj h
    cases hx
  | cons a l ih =>
    intro out h x hx
    rw [mapMO] at h
    cases hb : f a with
    | none => rw [hb] at h; cases h
    | some b =>
      rw [hb] at h
      simp only [Option.bind_eq_bind, Option.some_bind] at h
      cases hbs : mapMO f l with
      | none => rw [hbs] at h; cases h
      | some bs =>
        rw [hbs] at h
        simp only [Option.bind_eq_bind, Option.some_bind, Option.pure_def] at h
        cases Option.some.inj h
        rcases List.mem_cons.mp hx with rfl | hx'
        · exact ⟨a, by simp, hb⟩
        · obtain ⟨a', ha', hfa'⟩ := ih hbs x hx'
          exact ⟨a', by simp [ha'], hfa'⟩

theorem bind_some_red {α β : Type} (a : α) (f : α → Option β) : (some a >>= f) = f a := rfl

/-- Body of an emitted `t(...)` call: absent (GET/DELETE lines), a JSON
literal, or the random-credentials object of the sanity probe. -/
inductive BodySpec where
  | noBody
  | json (j : Json)
  | randomCreds
  deriving Repr, DecidableEq

/-- Assertion callback of an emitted `t(...)` call. -/
inductive CbSpec where
  | noCb
  | fieldCb (f : String)
  | fieldsCb (fs : List String)
  deriving Repr, DecidableEq

/-- One emitted line of the generated test module. -/
inductive EmitLine where
  | test (method route code : String) (body : BodySpec) (cb : CbSpec)
  | warning
  | raw (s : String)
  deriving Repr, DecidableEq

/-- Pass-3 request-example strategy 1 (lines 758-766): the first entry of
`media.examples`, taken only when its key is truthy and its `.value` is
defined (`ex?.value !== undefined`). -/
def reqExampleFromExamples (jsonContent : JsVal) : JsVal :=
  let exs := jsonContent.oget "examples"
  if exs.truthy then
    match exs.keys.head? with
    | some k => if k ≠ "" then (exs.oget k).oget "value" else none
    | none => none
  else none

/-- The prioritized passes' variant (lines 674-678 and 717-721): same
strategy, but `exs[k].value` is read without optional chaining, so a nullish
first entry throws. -/
def reqExampleFromExamplesC1 (jsonContent : JsVal) : Option JsVal := do
  let exs := jsonContent.oget "examples"
  if exs.truthy then
    match exs.keys.head? with
    | some k =>
        if k ≠ "" then (exs.oget k).sget "value"
        else pure none
    | none => pure none
  else pure none

/-- Collect `{ [k]: v.example }` over schema properties, skipping properties
without an example (`v.example` throws on a `null` property). -/
def collectPropExamples : List (String × Json) → Option (List (String × Json))
  | [] => some []
  | (k, v) :: rest => do
      let ev ← JsVal.sget (some v) "example"
      let tail ← collectPropExamples rest
      pure (match ev with | some e => (k, e) :: tail | none => tail)

/-- Request-example strategy 3 (lines 772-783): resolve the schema through
`$ref` when present (`resolved.example` throws when the ref dangles or the
ref value is not a string), use `.example`, else build the per-property
example object. -/
def schemaExample (doc : Json) (sch : JsVal) : Option JsVal := do
  let refV := sch.oget "$ref"
  let resolved : JsVal ←
    if refV.truthy then
      match refV with
      | some (.str r) => some (resolveRef doc r)
      | _ => none
    else some sch
  let ex ← resolved.sget "example"
  match ex with
  | some e => pure (some e)
  | none =>
      let props := resolved.oget "properties"
      if props.truthy then do
        let fields ← collectPropExamples (jsEntriesT props)
        pure (some (.obj fields))
      else pure none

/-- `detail.requestBody?.content?.["application/json"]`. -/
def mediaOf (detail : JsVal) : JsVal :=
  ((detail.oget "requestBody").oget "content").oget "application/json"

/-- Pass-3 request-body example extraction (lines 754-784). -/
def extractReqExample (doc : Json) (detail : JsVal) : Option JsVal := do
  let jsonContent := mediaOf detail
  if jsonContent.truthy then
    let e1 := reqExampleFromExamples jsonContent
    let e2 := match e1 with
      | some v => some v
      | none => jsonContent.oget "example"
    match e2 with
    | some v => pure (some v)
    | none =>
        let sch := jsonContent.oget "schema"
        if sch.truthy then schemaExample doc sch else pure none
  else pure none

/-- Request-body example extraction of the prioritized passes (lines 670-693
and 713-731). -/
def extractReqExampleC1 (doc : Json) (detail : JsVal) : Option JsVal := do
  let jsonContent := mediaOf detail
  if jsonContent.truthy then do
    let e1 ← reqExampleFromExamplesC1 jsonContent
    let e2 := match e1 with
      | some v => some v
      | none => jsonContent.oget "example"
    match e2 with
    | some v => pure (some v)
    | none =>
        let sch := jsonContent.oget "schema"
        if sch.truthy then schemaExample doc sch else pure none
  else pure none

/-- `extractResponseExamples` (lines 427-445): first entry of the content's
`examples` when its `.value` is truthy, else a truthy content `example`. -/
def extractResponseExamples (respObj : JsVal) : JsVal :=
  if respObj.truthy ∧ respObj.typeofObject then
    let cj := (respObj.oget "content").oget "application/json"
    let exs := cj.oget "examples"
    let v1 : JsVal :=
      if exs.truthy then
        match exs.keys.head? with
        | some k =>
            if k ≠ "" ∧ ((exs.oget k).oget "value").truthy then (exs.oget k).oget "value"
            else none
        | none => none
      else none
    match v1 with
    | some v => some v
    | none => if (cj.oget "example").truthy then cj.oget "example" else none
  else none

/-- `schema.properties` entries that are objects carrying a defined
`.example` (lines 798-802); a `null` property value throws. -/
def fieldsWithExamplesOf : List (String × Json) → Option (List String)
  | [] => some []
  | (k, v) :: rest => do
      let keep ←
        if v.typeofObject then do
          let ev ← JsVal.sget (some v) "example"
          pure ev.isSome
        else pure false
      let tail ← fieldsWithExamplesOf rest
      pure (if keep then k :: tail else tail)

/-- Result of the unified response handling of pass 3. -/
structure RespInfo where
  fieldsWithExamples : List String
  responseExample : JsVal
  deriving Repr

/-- Lines 789-792: resolve a response-object `$ref`, falling back to the
unresolved node when resolution is falsy; a truthy non-string `$ref` throws
inside `resolveRef`. -/
def respJsonResolved (doc : Json) (respObj0 : JsVal) : Option JsVal :=
  if (respObj0.oget "$ref").truthy then
    match respObj0.oget "$ref" with
    | some (.str r) => some (jsOr (resolveRef doc r) respObj0)
    | _ => none
  else some respObj0

/-- Response-example source 1 (lines 808-809): a truthy content `example`. -/
def respStrat1 (contentJson : JsVal) : JsVal :=
  if (contentJson.oget "example").truthy then contentJson.oget "example" else none

/-- Response-example source 2 (lines 810-814): the first entry of a truthy
content `examples`, when its `.value` is defined. -/
def respStrat2 (contentJson : JsVal) : JsVal :=
  if (contentJson.oget "examples").truthy then
    ((contentJson.oget "examples").oget
        (((contentJson.oget "examples").keys.head?).getD "undefined")).oget "value"
  else none

/-- Response-example source 3 (lines 817-822): when the schema is a `$ref`,
the resolved schema's truthy `example`. -/
def respStrat3 (doc : Json) (schema : JsVal) : Option JsVal :=
  if (schema.oget "$ref").truthy then
    match schema.oget "$ref" with
    | some (.str r) =>
        some (if ((resolveRef doc r).oget "example").truthy
          then (resolveRef doc r).oget "example" else none)
    | _ => none
  else some none

/-- Response-example source 4 (lines 825-833): when the response object was a
`$ref`, the referenced component's own examples via
`extractResponseExamples`. -/
def respStrat4 (doc : Json) (respObj0 : JsVal) : Option JsVal :=
  if (respObj0.oget "$ref").truthy then
    match respObj0.oget "$ref" with
    | some (.str r) =>
        if (resolveRef doc r).truthy then
          some (if (extractResponseExamples (resolveRef doc r)).truthy
            then extractResponseExamples (resolveRef doc r) else none)
        else some none
    | _ => none
  else some none

/-- The `if (responseExample === undefined && ...)` ladder of lines 804-833:
source 1, else source 2, else source 3, else source 4; a later source is only
evaluated (and can only throw) while the example is still undefined. -/
def respExampleChain (doc : Json) (respObj0 contentJson : JsVal) : Option JsVal :=
  match respStrat1 contentJson with
  | some v => some (some v)
  | none =>
      match respStrat2 contentJson with
      | some v => some (some v)
      | none =>
          (respStrat3 doc (contentJson.oget "schema")).bind fun s3 =>
            match s3 with
            | some v => some (some v)
            | none => respStrat4 doc respObj0

/-- Pass-3 response handling (lines 786-833): resolve a response `$ref`,
collect the schema's fields-with-examples, then find a response example by
the source ladder. -/
def respInfo (doc : Json) (detail : JsVal) (code : String) : Option RespInfo := do
  let respObj0 := (detail.oget "responses").oget code
  let respJson ← respJsonResolved doc respObj0
  let contentJson := (respJson.oget "content").oget "application/json"
  let schema := contentJson.oget "schema"
  let fwe ←
    if (schema.oget "properties").truthy then
      fieldsWithExamplesOf (jsEntriesT (schema.oget "properties"))
    else some []
  let re ← respExampleChain doc respObj0 contentJson
  pure ⟨fwe, re⟩

/-- One pass-3 emitted test line (lines 749-855): GET/DELETE get a bodyless
case; other methods extract a request example and response info, then pick
body and callback by the source's branch ladder. -/
def emitPass3Line (doc : Json) (route method : String) (detail : JsVal)
    (code : String) : Option EmitLine := do
  if ["get", "delete"].contains (jsToLower method) then
    pure (.test (jsToUpper method) route code .noBody .noCb)
  else do
    let exampleBody ← extractReqExample doc detail
    let info ← respInfo doc detail code
    if info.fieldsWithExamples ≠ [] then
      pure (.test (jsToUpper method) route code (.json (.obj []))
        (.fieldsCb info.fieldsWithExamples))
    else if info.responseExample.truthy ∧ info.responseExample.typeofObject then
      let fns := info.responseExample.keys
      if fns ≠ [] then
        pure (.test (jsToUpper method) route code (.json (coalesceObj exampleBody)) (.fieldsCb fns))
      else
        pure (.test (jsToUpper method) route code (.json (coalesceObj exampleBody)) .noCb)
    else
      match exampleBody with
      | some b => pure (.test (jsToUpper method) route code (.json b) .noCb)
      | none =>
          match parseIntJS code with
          | some n =>
              if 400 ≤ n ∧ n < 600 then
                pure (.test (jsToUpper method) route code (.json (.obj [])) (.fieldCb "message"))
              else pure (.test (jsToUpper method) route code (.json (.obj [])) .noCb)
          | none => pure (.test (jsToUpper method) route code (.json (.obj [])) .noCb)

def prioritizedRoutes : List String := ["/users", "/trainees"]

def findRoute (pl : List (String × Json)) (r : String) : Option (String × Json) :=
  pl.find? (fun it => it.1 = r)

/-- Pass 1 (lines 665-707): the POST cases of one prioritized route, followed
by the missing-duplicate-check warning when no `409` was emitted. -/
def emitClass1Route (doc : Json) (pl : List (String × Json)) (pr : String) :
    Option (List EmitLine) := do
  match findRoute pl pr with
  | none => pure []
  | some item => do
      let post ← JsVal.sget (some item.2) "post"
      if post.truthy then do
        let exampleBody ← extractReqExampleC1 doc post
        let codes := (sortStatusCodes (statusKeysT post)).filter (fun c => c ≠ "500")
        let cb : CbSpec := if (post.oget "callback").truthy then .fieldCb "message" else .noCb
        let lines := codes.map (fun code =>
          EmitLine.test "POST" pr code (.json (coalesceObj exampleBody)) cb)
        pure (lines ++ (if codes.contains "409" then [] else [.warning]))
      else pure []

/-- Pass 2 (lines 710-740): the POST `/sessions` cases. -/
def emitSessionsRoute (doc : Json) (pl : List (String × Json)) :
    Option (List EmitLine) := do
  match findRoute pl "/sessions" with
  | none => pure []
  | some item => do
      let post ← JsVal.sget (some item.2) "post"
      if post.truthy then do
        let sessBody ← extractReqExampleC1 doc post
        let codes := (sortStatusCodes (statusKeysT post)).filter (fun c => c ≠ "500")
        let cb : CbSpec := if (post.oget "callback").truthy then .fieldCb "message" else .noCb
        pure (codes.map (fun code =>
          EmitLine.test "POST" "/sessions" code (.json (coalesceObj sessBody)) cb))
      else pure []

/-- Pass 3, one method of one route. -/
def emitPass3Method (doc : Json) (route method : String) (detail : Json) :
    Option (List EmitLine) := do
  let codes0 ← statusKeys? detail
  let codes := (sortStatusCodes codes0).filter (fun c => c ≠ "500")
  mapMO (emitPass3Line doc route method (some detail)) codes

/-- Pass 3, one route (lines 743-858) with the skip of the prioritized
routes' POST operations. -/
def emitPass3Route (doc : Json) (route : String) (methods : Json) :
    Option (List EmitLine) := do
  let ents ← jsEntries? (some methods)
  let parts ← mapMO (fun md =>
    if (prioritizedRoutes.contains route ∨ route = "/sessions") ∧ jsToLower md.1 = "post" then
      pure []
    else emitPass3Method doc route md.1 md.2) ents
  pure parts.flatten

/-- Route priority (lines 618-628): identity-creation routes with a POST
first, the session route with a POST second, all else third. -/
def priorityFor (it : String × Json) : Int :=
  let hasPost := it.2.keys.contains "post"
  if (it.1 = "/users" ∨ it.1 = "/trainees") ∧ hasPost then 1
  else if it.1 = "/sessions" ∧ hasPost then 2
  else 3

/-- `Object.entries(swaggerDoc.paths || {})` sorted by priority (stable). -/
def pathListSorted (paths : JsVal) : List (String × Json) :=
  stableSortLe (fun a b => priorityFor a ≤ priorityFor b)
    (jsEntriesT (jsOr paths (some (.obj []))))

/-- Lines 647-658: constants, random credentials, the sanity probe
`t("POST /sessions", false, 400, {username, password})`. -/
def preambleLines (link : Option String) (base : String) : List EmitLine :=
  (match link with
   | some l => [EmitLine.raw ("const SWAGGER_URL = \"" ++ l ++ "\";")]
   | none => []) ++
  [ .raw ("globalThis.BASE_URL = \"" ++ base ++ "\";"),
    .raw "",
    .raw "// Generate random user",
    .raw "const username = `testuser_$\x7brandomInt(1000, 9999)\x7d`;",
    .raw "const password = `testpass_$\x7brandomInt(1000, 9999)\x7d`;",
    .raw "",
    .test "POST" "/sessions" "400" .randomCreds .noCb,
    .raw "" ]

/-- Whether any emitted line mentions `expect_field` (lines 866-869; only
assertion callbacks do). -/
def usesExpectField (lines : List EmitLine) : Bool :=
  lines.any (fun l => match l with
    | .test _ _ _ _ .noCb => false
    | .test _ _ _ _ _ => true
    | _ => false)

def importHelpers (lines : List EmitLine) : List String :=
  ["t", "runQueuedTests", "randomInt"] ++
    (if usesExpectField lines then ["expect_field"] else [])

def importLine (hs : List String) : EmitLine :=
  .raw ("import \x7b " ++ String.intercalate ", " hs ++ " \x7d from \"../src/test_helpers\";")

/-- The whole emission (lines 613-871), given the acquired document, the
optional Swagger UI link and the derived base URL; `none` is a generator
crash. -/
def generateTestLines (doc : Json) (link : Option String) (base : String) :
    Option (List EmitLine) := do
  let pathsV ← JsVal.sget (some doc) "paths"
  let pl := pathListSorted pathsV
  let c1u ← emitClass1Route doc pl "/users"
  let c1t ← emitClass1Route doc pl "/trainees"
  let ses ← emitSessionsRoute doc pl
  let p3parts ← mapMO (fun it => emitPass3Route doc it.1 it.2) pl
  let body := preambleLines link base ++ c1u ++ c1t ++ ses ++ p3parts.flatten
    ++ [.raw "", .raw "runQueuedTests();"]
  pure (importLine (importHelpers body) :: body)

/- ------------------------------------------------------------------
   Claim C6 — Reference Resolver round trip
   ------------------------------------------------------------------ -/

/-- C6: `resolve(doc, ref)` returns the exact subtree reached by splitting
the part after `#/` on `/` and indexing successively when every segment
exists; it returns `undefined` (never throwing — the function is total) when
the ref does not start with `#/` or when any segment along the walk is
missing. -/
theorem resolveRef_roundtrip :
    (∀ (doc : Json) (ref : String) (v : Json), strStartsWith ref "#/" = true →
        Reaches doc (refSegs ref) v → resolveRef doc ref = some v)
    ∧ (∀ (doc : Json) (ref : String), strStartsWith ref "#/" = true →
        (∀ v, ¬ Reaches doc (refSegs ref) v) → resolveRef doc ref = none)
    ∧ (∀ (doc : Json) (ref : String), ¬ strStartsWith ref "#/" = true →
        resolveRef doc ref = none) := by
  refine ⟨fun doc ref v hs hr => ?_, fun doc ref hs hn => ?_, fun doc ref hs => ?_⟩
  · rw [resolveRef, if_pos hs]
    exact (walkSegs_eq_some_iff_reaches _ _ _).mpr hr
  · rw [resolveRef, if_pos hs]
    cases hw : walkSegs doc (refSegs ref) with
    | none => rfl
    | some v => exact absurd ((walkSegs_eq_some_iff_reaches _ _ _).mp hw) (hn v)
  · rw [resolveRef, if_neg hs]

def docC6 : Json :=
  .obj [("components", .obj [("schemas", .obj [("User", .obj [("example", .num 1)])])])]

theorem resolveRef_roundtrip_witness :
    resolveRef docC6 "#/components/schemas/User" = some (.obj [("example", .num 1)])
    ∧ resolveRef docC6 "#/components/schemas/Nope" = none
    ∧ resolveRef docC6 "components/schemas/User" = none := by
  refine ⟨?_, ?_, ?_⟩
  · refine resolveRef_roundtrip.1 docC6 "#/components/schemas/User" _ (by decide) ?_
    show Reaches docC6 ["components", "schemas", "User"] _
    exact .cons (by decide) (by decide) rfl
      (.cons (by decide) (by decide) rfl
        (.cons (by decide) (by decide) rfl (.nil _)))
  · refine resolveRef_roundtrip.2.1 docC6 "#/components/schemas/Nope" (by decide) ?_
    intro v hv
    have := (walkSegs_eq_some_iff_reaches docC6
      (refSegs "#/components/schemas/Nope") v).mpr hv
    rw [show walkSegs docC6 (refSegs "#/components/schemas/Nope") = none from rfl] at this
    exact Option.noConfusion this
  · exact resolveRef_roundtrip.2.2 docC6 "components/schemas/User" (by decide)

/- ------------------------------------------------------------------
   Claim C10 — invalid method/path descriptor
   ------------------------------------------------------------------ -/

/-- C10: when the descriptor does not split (on a space, first two pieces)
into a non-empty method and a non-empty path, `req` returns the sentinel
`{status: 0, body: "Invalid methodPath: " + descriptor}` — for every
environment, so no HTTP request is dispatched and nothing is thrown. -/
theorem req_invalid_methodPath :
    ∀ (mp : String) (body : JsVal) (headers : List (String × String)) (env : ReqEnv),
      reqMethod mp = "" ∨ reqPath mp = "" →
      req mp body headers env = .ok ⟨0, some (.str ("Invalid methodPath: " ++ mp))⟩ := by
  intro mp body headers env h
  rw [req]
  simp only [if_pos h]

theorem req_invalid_methodPath_witness :
    (reqMethod "GET" = "" ∨ reqPath "GET" = "")
    ∧ req "GET" none [] ⟨none, false, .failure "boom"⟩
        = .ok ⟨0, some (.str "Invalid methodPath: GET")⟩
    ∧ (reqMethod "" = "" ∨ reqPath "" = "")
    ∧ req "" none [] ⟨some "http://x", true, .success 200 none⟩
        = .ok ⟨0, some (.str "Invalid methodPath: ")⟩ := by
  refine ⟨Or.inr (by decide), ?_, Or.inl (by decide), ?_⟩
  · exact req_invalid_methodPath "GET" none [] ⟨none, false, .failure "boom"⟩
      (Or.inr (by decide))
  · exact req_invalid_methodPath "" none [] ⟨some "http://x", true, .success 200 none⟩
      (Or.inl (by decide))

/- ------------------------------------------------------------------
   Claim C8 — transport failures become the status-0 sentinel
   ------------------------------------------------------------------ -/

/-- C8: for every dispatched request (valid descriptor, `BASE_URL` set,
URL parse fine), a transport-level fetch failure is caught and returned as
`{status: 0, body: message}` — an `Except.ok`, never a thrown error — so the
case is judged by the ordinary comparison of `0` with the expected status. -/
theorem req_transport_failure_sentinel :
    ∀ (mp : String) (body : JsVal) (headers : List (String × String))
      (b msg : String),
      reqMethod mp ≠ "" → reqPath mp ≠ "" →
      req mp body headers ⟨some b, true, .failure msg⟩ = .ok ⟨0, some (.str msg)⟩ := by
  intro mp body headers b msg hm hp
  rw [req]
  rw [if_neg (by simp [hm, hp])]
  rfl

theorem req_transport_failure_sentinel_witness :
    reqMethod "GET /profile" ≠ "" ∧ reqPath "GET /profile" ≠ ""
    ∧ req "GET /profile" none [] ⟨some "http://api", true, .failure "connection refused"⟩
        = .ok ⟨0, some (.str "connection refused")⟩ := by
  refine ⟨by decide, by decide, ?_⟩
  exact req_transport_failure_sentinel "GET /profile" none [] "http://api"
    "connection refused" (by decide) (by decide)

/- ------------------------------------------------------------------
   Claim C1 — `$name` substitution in queued case paths
   ------------------------------------------------------------------ -/

/-- C1 counterexample: with no `id` in the shared context, the queued path
`"GET /users/$id"` does not stay literal — the replacement callback returns
`undefined`, which the regex replace coerces to the text `undefined`. -/
theorem subst_missing_token_not_literal :
    substPlaceholders "GET /users/$id" [] ≠ "GET /users/$id"
    ∧ substPlaceholders "GET /users/$id" [] = "GET /users/undefined" := by
  constructor
  · simp +decide [substPlaceholders, substChars]
  · simp +decide [substPlaceholders, substChars]

theorem takeWhile_all_append {p : Char → Bool} {l post : List Char}
    (h : ∀ c ∈ l, p c = true)
    (hpost : post = [] ∨ ∃ c rest, post = c :: rest ∧ p c = false) :
    (l ++ post).takeWhile p = l ∧ (l ++ post).dropWhile p = post := by
  induction l with
  | nil =>
    rcases hpost with rfl | ⟨c, rest, rfl, hc⟩
    · simp [List.takeWhile, List.dropWhile]
    · simp [List.takeWhile, List.dropWhile, hc]
  | cons a l ih =>
    have ha : p a = true := h a (by simp)
    have := ih (fun c hc => h c (by simp [hc]))
    simp [List.takeWhile, List.dropWhile, ha, this.1, this.2]

theorem substChars_no_dollar_append (ctx : Ctx) (pre rest : List Char)
    (h : ∀ c ∈ pre, c ≠ '$') :
    substChars ctx (pre ++ rest) = pre ++ substChars ctx rest := by
  induction pre with
  | nil => simp
  | cons c pre ih =>
    have hc : c ≠ '$' := h c (by simp)
    rw [List.cons_append, substChars.eq_def]
    show (if c = '$' then _ else c :: substChars ctx (pre ++ rest)) = _
    rw [if_neg hc, ih (fun d hd => h d (by simp [hd]))]
    simp

/-- C1 amended: every `$name` token (a `$` followed by a letter and then the
greedy run of word characters) is replaced by the string coercion of
`ctx[name]`; a name missing from the shared context is replaced by the text
`undefined` (not kept literal, and no error is raised). -/
theorem substPlaceholders_token_subst :
    (∀ (ctx : Ctx) (pre post : List Char) (d : Char) (nm : List Char),
      (∀ c ∈ pre, c ≠ '$') → isLetter d = true → (∀ c ∈ nm, isWordChar c = true) →
      (post = [] ∨ ∃ c rest, post = c :: rest ∧ isWordChar c = false) →
      substChars ctx (pre ++ '$' :: d :: (nm ++ post))
        = pre ++ ((ctxGet ctx (String.mk (d :: nm))).jsToStr).toList ++ substChars ctx post)
    ∧ JsVal.jsToStr (none : JsVal) = "undefined" := by
  constructor
  · intro ctx pre post d nm hpre hd hnm hpost
    rw [substChars_no_dollar_append ctx pre _ hpre]
    have htk := takeWhile_all_append hnm hpost
    have hmain : substChars ctx ('$' :: d :: (nm ++ post))
        = ((ctxGet ctx (String.mk (d :: nm))).jsToStr).toList ++ substChars ctx post := by
      rw [substChars.eq_def]
      show (if ('$' : Char) = '$' then
          (if isLetter d = true then
            (ctxGet ctx (String.mk (d :: (nm ++ post).takeWhile isWordChar))).jsToStr.toList ++
              substChars ctx ((nm ++ post).dropWhile isWordChar)
          else '$' :: substChars ctx (d :: (nm ++ post)))
        else '$' :: substChars ctx (d :: (nm ++ post))) = _
      rw [if_pos rfl, if_pos hd, htk.1, htk.2]
    rw [hmain, List.append_assoc]
  · rfl

theorem substPlaceholders_token_subst_witness :
    substChars [] ("GET /users/".toList ++ '$' :: 'i' :: ("d".toList ++ []))
      = "GET /users/".toList ++ ((ctxGet [] (String.mk ['i', 'd'])).jsToStr).toList
        ++ substChars [] []
    ∧ JsVal.jsToStr (none : JsVal) = "undefined"
    ∧ substPlaceholders "GET /users/$id" [("id", .str "42")] = "GET /users/42" := by
  refine ⟨?_, substPlaceholders_token_subst.2, ?_⟩
  · exact substPlaceholders_token_subst.1 [] "GET /users/".toList [] 'i' "d".toList
      (by decide) (by decide) (by decide) (Or.inl rfl)
  · simp +decide [substPlaceholders, substChars]

/- ------------------------------------------------------------------
   Runtime trace facts shared by C5 and C7
   ------------------------------------------------------------------ -/

theorem getLast?_cons_cons {α : Type} (a b : α) (l : List α) :
    (a :: b :: l).getLast? = (b :: l).getLast? := by
  simp [List.getLast?]

theorem dropLast_cons₂ {α : Type} (a b : α) (l : List α) :
    (a :: b :: l).dropLast = a :: (b :: l).dropLast := rfl

theorem runQueuedAux_trace (envs : Nat → ReqEnv) :
    ∀ (tests : List QueuedTest) (i : Nat) (ctx : Ctx),
      ((runQueuedAux envs tests i ctx).1.map CaseTrace.test
          = tests.take (runQueuedAux envs tests i ctx).1.length)
      ∧ (∀ e ∈ (runQueuedAux envs tests i ctx).1.dropLast, e.passed = true)
      ∧ ((runQueuedAux envs tests i ctx).2 = .completed →
           (runQueuedAux envs tests i ctx).1.length = tests.length)
      ∧ ((runQueuedAux envs tests i ctx).2 = .failedCase →
           ∃ e, (runQueuedAux envs tests i ctx).1.getLast? = some e ∧ e.passed = false)
      ∧ (∀ e ∈ (runQueuedAux envs tests i ctx).1,
           e.path = substPlaceholders e.test.url e.ctxBefore
           ∧ e.headers = authHeaders e.test.auth e.ctxBefore
           ∧ (e.passed = true ↔ e.res.status = e.test.expStatus)
           ∧ (e.passed = true → e.ctxAfter = applySave e.test.save e.res e.ctxBefore))
      ∧ List.Chain' (fun a b => b.ctxBefore = a.ctxAfter) (runQueuedAux envs tests i ctx).1
      ∧ (∀ hd, (runQueuedAux envs tests i ctx).1.head? = some hd → hd.ctxBefore = ctx) := by
  intro tests
  induction tests with
  | nil =>
    intro i ctx
    simp [runQueuedAux]
  | cons t rest ih =>
    intro i ctx
    simp only [runQueuedAux]
    cases hreq : req (substPlaceholders t.url ctx) t.body (authHeaders t.auth ctx) (envs i) with
    | error m =>
      simp
    | ok res =>
      by_cases hst : res.status = t.expStatus
      · simp only [if_pos hst]
        obtain ⟨h1, h2, h3, h4, h5, h6, h7⟩ := ih (i + 1) (applySave t.save res ctx)
        set rr := runQueuedAux envs rest (i + 1) (applySave t.save res ctx) with hrr
        refine ⟨?_, ?_, ?_, ?_, ?_, ?_, ?_⟩
        · simp only [List.map_cons, List.length_cons, List.take_succ_cons, h1]
        · intro e he
          cases htr : rr.1 with
          | nil => rw [htr] at he; simp at he
          | cons e0 tr0 =>
            rw [htr] at he
            rw [dropLast_cons₂] at he
            simp only [List.mem_cons] at he
            rcases he with rfl | he
            · rfl
            · exact h2 e (by rw [htr]; exact he)
        · intro hco
          simp only [List.length_cons, h3 hco]
        · intro hfa
          obtain ⟨e, he1, he2⟩ := h4 hfa
          cases htr : rr.1 with
          | nil => rw [htr] at he1; simp at he1
          | cons e0 tr0 =>
            refine ⟨e, ?_, he2⟩
            rw [getLast?_cons_cons, ← htr]
            exact he1
        · intro e he
          simp only [List.mem_cons] at he
          rcases he with rfl | he
          · exact ⟨rfl, rfl, by simp [hst], fun _ => rfl⟩
          · exact h5 e he
        · refine List.chain'_cons'.mpr ⟨?_, h6⟩
          intro b hb
          exact h7 b hb
        · intro hd hhd
          simp only [List.head?_cons, Option.some.injEq] at hhd
          rw [← hhd]
      · simp only [if_neg hst]
        refine ⟨by simp, by simp, by simp, ?_, ?_, by simp, ?_⟩
        · intro _
          exact ⟨_, rfl, rfl⟩
        · intro e he
          simp only [List.mem_cons, List.not_mem_nil, or_false] at he
          subst he
          exact ⟨rfl, rfl, by simp [hst], by simp⟩
        · intro hd hhd
          simp only [List.head?_cons, Option.some.injEq] at hhd
          rw [← hhd]

/- ------------------------------------------------------------------
   Claim C7 — strict FIFO execution with fail-fast halt
   ------------------------------------------------------------------ -/

/-- C7: queued cases execute strictly in enqueue order (the trace is a prefix
of the queue); a status match runs the optional callback — whose context
rewrite is carried into the next case — and execution advances; a mismatch
makes that case the last one executed, so no later queued case ever runs. -/
theorem runQueuedTests_fifo_fail_fast :
    ∀ (tests : List QueuedTest) (envs : Nat → ReqEnv) (ctx : Ctx),
      ((runQueuedTests tests envs ctx).1.map CaseTrace.test
          = tests.take (runQueuedTests tests envs ctx).1.length)
      ∧ (∀ e ∈ (runQueuedTests tests envs ctx).1.dropLast, e.passed = true)
      ∧ ((runQueuedTests tests envs ctx).2 = .completed →
           (runQueuedTests tests envs ctx).1.length = tests.length)
      ∧ ((runQueuedTests tests envs ctx).2 = .failedCase →
           ∃ e, (runQueuedTests tests envs ctx).1.getLast? = some e ∧ e.passed = false)
      ∧ (∀ e ∈ (runQueuedTests tests envs ctx).1,
           (e.passed = true ↔ e.res.status = e.test.expStatus)
           ∧ (e.passed = true → e.ctxAfter = applySave e.test.save e.res e.ctxBefore))
      ∧ List.Chain' (fun a b => b.ctxBefore = a.ctxAfter) (runQueuedTests tests envs ctx).1 := by
  intro tests envs ctx
  obtain ⟨h1, h2, h3, h4, h5, h6, _⟩ := runQueuedAux_trace envs tests 0 ctx
  exact ⟨h1, h2, h3, h4, fun e he => ⟨(h5 e he).2.2.1, (h5 e he).2.2.2⟩, h6⟩

def testsC7 : List QueuedTest :=
  [⟨"GET /a", false, 200, none, none⟩, ⟨"GET /b", false, 200, none, none⟩]

def envsC7 : Nat → ReqEnv := fun _ => ⟨some "http://x", true, .success 500 none⟩

theorem runQueuedTests_fifo_fail_fast_witness :
    ((runQueuedTests testsC7 envsC7 []).1.map CaseTrace.test
        = testsC7.take (runQueuedTests testsC7 envsC7 []).1.length)
    ∧ (∃ e, (runQueuedTests testsC7 envsC7 []).1.getLast? = some e ∧ e.passed = false)
    ∧ (runQueuedTests testsC7 envsC7 []).1.length = 1 := by
  have h := runQueuedTests_fifo_fail_fast testsC7 envsC7 []
  refine ⟨h.1, h.2.2.2.1 ?_, ?_⟩
  · simp +decide [runQueuedTests, runQueuedAux, req, reqMethod, reqPath, jsSplit, splitOnChar,
      substPlaceholders, substChars, authHeaders, ctxGet, lookupField, testsC7, envsC7]
  · simp +decide [runQueuedTests, runQueuedAux, req, reqMethod, reqPath, jsSplit, splitOnChar,
      substPlaceholders, substChars, authHeaders, ctxGet, lookupField, testsC7, envsC7]

/- ------------------------------------------------------------------
   Claim C5 — Authorization header and the silent degrade
   ------------------------------------------------------------------ -/

def ctxC5 : Ctx := [("token", Json.str "")]

def testsC5 : List QueuedTest := [⟨"GET /profile", true, 200, none, none⟩]

def envsC5 : Nat → ReqEnv := fun _ => ⟨some "http://x", true, .success 200 none⟩

/-- C5 counterexample: `SharedContext.token` is set (to the empty string),
`auth = true`, yet the case is dispatched with no `Authorization` header —
the code tests truthiness of `ctx.token`, not presence. -/
theorem auth_header_set_token_counterexample :
    (ctxGet ctxC5 "token").isSome = true
    ∧ (runQueuedTests testsC5 envsC5 ctxC5).1.map CaseTrace.headers = [[]] := by
  constructor
  · rfl
  · simp +decide [runQueuedTests, runQueuedAux, req, reqMethod, reqPath, jsSplit, splitOnChar,
      substPlaceholders, substChars, authHeaders, ctxGet, lookupField, testsC5, envsC5, ctxC5,
      JsVal.truthy, Json.truthy, applySave]

/-- C5 amended: for a case with `auth = true`, the bearer `Authorization`
header is attached iff `SharedContext.token` holds a truthy value at
execution time (a token set to a falsy value such as `""` attaches nothing);
without it the request is sent with empty headers, and the case still passes
or fails purely by the status comparison — the missing token itself is never
a failure. -/
theorem auth_header_iff_truthy_token :
    (∀ (tests : List QueuedTest) (envs : Nat → ReqEnv) (ctx : Ctx),
        ∀ e ∈ (runQueuedTests tests envs ctx).1,
          e.headers = authHeaders e.test.auth e.ctxBefore
          ∧ (e.passed = true ↔ e.res.status = e.test.expStatus))
    ∧ (∀ ctx : Ctx, (ctxGet ctx "token").truthy = true →
        authHeaders true ctx
          = [("Authorization", "Bearer " ++ (ctxGet ctx "token").jsToStr)])
    ∧ (∀ ctx : Ctx, (ctxGet ctx "token").truthy = false → authHeaders true ctx = []) := by
  refine ⟨?_, ?_, ?_⟩
  · intro tests envs ctx e he
    obtain ⟨_, _, _, _, h5, _, _⟩ := runQueuedAux_trace envs tests 0 ctx
    exact ⟨(h5 e he).2.1, (h5 e he).2.2.1⟩
  · intro ctx h
    rw [authHeaders, if_pos (by simp [h])]
  · intro ctx h
    rw [authHeaders, if_neg (by simp [h])]

theorem auth_header_iff_truthy_token_witness :
    authHeaders true [("token", Json.str "abc")] = [("Authorization", "Bearer abc")]
    ∧ authHeaders true [] = []
    ∧ (∀ e ∈ (runQueuedTests testsC5 envsC5 ctxC5).1,
        e.headers = authHeaders e.test.auth e.ctxBefore) := by
  refine ⟨?_, ?_, ?_⟩
  · rw [auth_header_iff_truthy_token.2.1 [("token", Json.str "abc")] (by decide)]
    rfl
  · exact auth_header_iff_truthy_token.2.2 [] (by decide)
  · intro e he
    exact ((auth_header_iff_truthy_token.1 testsC5 envsC5 ctxC5) e he).1

/- ------------------------------------------------------------------
   Claim C3 — example-extraction strategy order
   ------------------------------------------------------------------ -/

/-- The extraction order the claim states, applied to a media node:
(1) first entry of `media.examples`, (2) `media.example`, (3) the schema
(`$ref`-resolved): its example, else the per-property example object. -/
def claimC3Extract (doc : Json) (media : JsVal) : Option JsVal :=
  match reqExampleFromExamples media with
  | some v => some (some v)
  | none =>
      match media.oget "example" with
      | some e => some (some e)
      | none =>
          if (media.oget "schema").truthy then schemaExample doc (media.oget "schema")
          else some none

def docC3 : Json := .obj []

def respC3 : Json :=
  .obj [("content", .obj [("application/json", .obj [
    ("example", .str "A"),
    ("examples", .obj [("e1", .obj [("value", .str "B")])])])])]

def detailC3 : Json := .obj [("responses", .obj [("200", respC3)])]

def mediaC3 : JsVal :=
  JsVal.oget (JsVal.oget (some respC3) "content") "application/json"

/-- C3 counterexample: on a response media node carrying both `example: "A"`
and `examples` whose first entry's value is `"B"`, the claimed order picks
`"B"`, but the code's response handling checks `example` before `examples`
and extracts `"A"`. -/
theorem response_extraction_order_counterexample :
    claimC3Extract docC3 mediaC3 = some (some (.str "B"))
    ∧ (respInfo docC3 (some detailC3) "200").map RespInfo.responseExample
        = some (some (.str "A"))
    ∧ Json.str "B" ≠ Json.str "A" := by
  refine ⟨rfl, rfl, by decide⟩

/-- The amended claim's request-body extraction order (matching the claim as
stated): examples-first-entry, then `example`, then the schema. -/
def requestExtractSpec (doc : Json) (detail : JsVal) : Option JsVal :=
  let media := mediaOf detail
  if media.truthy then
    match reqExampleFromExamples media with
    | some v => some (some v)
    | none =>
        match media.oget "example" with
        | some e => some (some e)
        | none =>
            if (media.oget "schema").truthy then schemaExample doc (media.oget "schema")
            else some none
  else some none

/-- The amended claim's response-example order: content `example` first,
then content `examples` first entry, then (only when the schema is a `$ref`)
the resolved schema's example, then the `$ref` response component's own
examples; no per-property object is ever built for responses. -/
def responseExtractSpec (doc : Json) (detail : JsVal) (code : String) : Option JsVal := do
  let respObj0 := (detail.oget "responses").oget code
  let respJson ← respJsonResolved doc respObj0
  let contentJson := (respJson.oget "content").oget "application/json"
  respExampleChain doc respObj0 contentJson

/-- C3 amended: the request-body extraction follows the claimed order
(examples-first-entry, then `example`, then schema-based, first defined
result winning), but the response extraction differs from the claim: it
tries the content `example` BEFORE the content `examples`, then a `$ref`
schema's example, then the `$ref` response component's examples, and never
builds a per-property example object. -/
theorem extraction_priority_amended :
    (∀ (doc : Json) (detail : JsVal),
        extractReqExample doc detail = requestExtractSpec doc detail)
    ∧ (∀ (doc : Json) (detail : JsVal) (code : String) (info : RespInfo),
        respInfo doc detail code = some info →
        responseExtractSpec doc detail code = some info.responseExample) := by
  constructor
  · intro doc detail
    rw [extractReqExample, requestExtractSpec]
    cases h1 : reqExampleFromExamples (mediaOf detail) <;>
      cases h2 : (mediaOf detail).oget "example" <;>
        simp [h1, h2]
  · intro doc detail code info h
    rw [respInfo] at h
    rw [responseExtractSpec]
    cases hA : respJsonResolved doc ((detail.oget "responses").oget code) with
    | none => rw [hA] at h; simp at h
    | some rj =>
      rw [hA] at h
      simp only [Option.bind_eq_bind, Option.some_bind] at h ⊢
      by_cases hP : ((((rj.oget "content").oget "application/json").oget "schema").oget
          "properties").truthy = true
      · rw [if_pos hP] at h
        cases hFw : fieldsWithExamplesOf (jsEntriesT ((((rj.oget "content").oget
            "application/json").oget "schema").oget "properties")) with
        | none => rw [hFw] at h; simp at h
        | some fwe =>
          rw [hFw] at h
          simp only [Option.bind_eq_bind, Option.some_bind] at h
          cases hC : respExampleChain doc ((detail.oget "responses").oget code)
              ((rj.oget "content").oget "application/json") with
          | none => rw [hC] at h; simp at h
          | some re =>
            rw [hC] at h
            simp only [Option.bind_eq_bind, Option.some_bind, Option.pure_def,
              Option.some.injEq] at h
            rw [← h]
      · rw [if_neg hP] at h
        cases hC : respExampleChain doc ((detail.oget "responses").oget code)
            ((rj.oget "content").oget "application/json") with
        | none => rw [hC] at h; simp at h
        | some re =>
          rw [hC] at h
          simp only [Option.bind_eq_bind, Option.some_bind, Option.pure_def,
            Option.some.injEq] at h
          rw [← h]

def detailC3w : Json :=
  .obj [("requestBody", .obj [("content", .obj [("application/json", .obj [
      ("example", .obj [("x", .num 1)])])])]),
    ("responses", .obj [("200", respC3)])]

theorem extraction_priority_amended_witness :
    extractReqExample docC3 (some detailC3w) = requestExtractSpec docC3 (some detailC3w)
    ∧ extractReqExample docC3 (some detailC3w) = some (some (.obj [("x", .num 1)]))
    ∧ responseExtractSpec docC3 (some detailC3w) "200" = some (some (.str "A")) := by
  refine ⟨extraction_priority_amended.1 docC3 (some detailC3w), rfl, ?_⟩
  have h := extraction_priority_amended.2 docC3 (some detailC3w) "200"
    ⟨[], some (.str "A")⟩ rfl
  exact h

/- ------------------------------------------------------------------
   Claim C9 — missing-duplicate-check warning marker
   ------------------------------------------------------------------ -/

def countWarnings (lines : List EmitLine) : Nat :=
  lines.countP (fun l => l = EmitLine.warning)

theorem countWarnings_append (a b : List EmitLine) :
    countWarnings (a ++ b) = countWarnings a + countWarnings b :=
  List.countP_append _ _ _

theorem countWarnings_eq_zero {lines : List EmitLine}
    (h : ∀ l ∈ lines, l ≠ EmitLine.warning) : countWarnings lines = 0 := by
  rw [countWarnings, List.countP_eq_zero]
  intro l hl
  simpa using h l hl

/-- Every line pass 3 emits for a code is a test line of that method, route
and code. -/
theorem emitPass3Line_shape {doc : Json} {r m : String} {d : JsVal} {c : String}
    {line : EmitLine} (h : emitPass3Line doc r m d c = some line) :
    ∃ b cb, line = .test (jsToUpper m) r c b cb := by
  rw [emitPass3Line] at h
  split at h
  · cases Option.some.inj h; exact ⟨_, _, rfl⟩
  · cases hE : extractReqExample doc d with
    | none => rw [hE] at h; cases h
    | some eb =>
      rw [hE, bind_some_red] at h
      cases hR : respInfo doc d c with
      | none => rw [hR] at h; cases h
      | some info =>
        rw [hR, bind_some_red] at h
        simp only [Option.pure_def] at h
        split at h
        · cases Option.some.inj h; exact ⟨_, _, rfl⟩
        · split at h
          · split at h
            · cases Option.some.inj h; exact ⟨_, _, rfl⟩
            · cases Option.some.inj h; exact ⟨_, _, rfl⟩
          · split at h
            · cases Option.some.inj h; exact ⟨_, _, rfl⟩
            · split at h
              · split at h
                · cases Option.some.inj h; exact ⟨_, _, rfl⟩
                · cases Option.some.inj h; exact ⟨_, _, rfl⟩
              · cases Option.some.inj h; exact ⟨_, _, rfl⟩

theorem emitPass3Method_shape {doc : Json} {r m : String} {d : Json}
    {out : List EmitLine} (h : emitPass3Method doc r m d = some out) :
    ∀ l ∈ out, ∃ c b cb, l = .test (jsToUpper m) r c b cb := by
  rw [emitPass3Method] at h
  cases hK : statusKeys? d with
  | none => rw [hK] at h; cases h
  | some ks =>
    rw [hK, bind_some_red] at h
    intro l hl
    obtain ⟨c, _, hc⟩ := mapMO_mem h l hl
    obtain ⟨b, cb, rfl⟩ := emitPass3Line_shape hc
    exact ⟨c, b, cb, rfl⟩

theorem emitPass3Route_no_warning {doc : Json} {r : String} {ms : Json}
    {out : List EmitLine} (h : emitPass3Route doc r ms = some out) :
    countWarnings out = 0 := by
  rw [emitPass3Route] at h
  cases hE : jsEntries? (some ms) with
  | none => rw [hE] at h; cases h
  | some ents =>
    rw [hE, bind_some_red] at h
    cases hP : mapMO (fun md =>
        if (prioritizedRoutes.contains r ∨ r = "/sessions") ∧ jsToLower md.1 = "post" then
          pure []
        else emitPass3Method doc r md.1 md.2) ents with
    | none => rw [hP] at h; cases h
    | some parts =>
      rw [hP, bind_some_red] at h
      simp only [Option.pure_def] at h
      cases Option.some.inj h
      refine countWarnings_eq_zero ?_
      intro l hl
      obtain ⟨part, hpart, hlp⟩ := List.mem_flatten.mp hl
      obtain ⟨md, _, hmd⟩ := mapMO_mem hP part hpart
      by_cases hskip : (prioritizedRoutes.contains r ∨ r = "/sessions")
          ∧ jsToLower md.1 = "post"
      · rw [if_pos hskip] at hmd
        cases Option.some.inj hmd
        cases hlp
      · rw [if_neg hskip] at hmd
        obtain ⟨c, b, cb, rfl⟩ := emitPass3Method_shape hmd l hlp
        simp

theorem emitSessionsRoute_no_warning {doc : Json} {pl : List (String × Json)}
    {out : List EmitLine} (h : emitSessionsRoute doc pl = some out) :
    countWarnings out = 0 := by
  rw [emitSessionsRoute] at h
  cases hf : findRoute pl "/sessions" with
  | none =>
    simp only [hf] at h
    cases Option.some.inj h
    rfl
  | some item =>
    simp only [hf] at h
    cases hp : JsVal.sget (some item.2) "post" with
    | none => rw [hp] at h; cases h
    | some post =>
      rw [hp, bind_some_red] at h
      split at h
      · cases hE : extractReqExampleC1 doc post with
        | none => rw [hE] at h; cases h
        | some eb =>
          rw [hE, bind_some_red] at h
          simp only [Option.pure_def] at h
          cases Option.some.inj h
          refine countWarnings_eq_zero ?_
          intro l hl
          obtain ⟨c, _, rfl⟩ := List.mem_map.mp hl
          simp
      · cases Option.some.inj h
        rfl

/-- C9: a class-1 (identity-creation) route that declares a POST operation
gets the missing-duplicate-check warning marker exactly once when "409" is
not among the POST's response status codes, and never when it is; and the
whole generated output contains no warning markers besides those of the two
class-1 passes. -/
theorem class1_missing_409_warning :
    (∀ (doc : Json) (pl : List (String × Json)) (pr : String) (item : String × Json)
        (post : JsVal) (seg : List EmitLine),
        (pr = "/users" ∨ pr = "/trainees") →
        findRoute pl pr = some item →
        JsVal.sget (some item.2) "post" = some post →
        post.truthy = true →
        emitClass1Route doc pl pr = some seg →
        countWarnings seg = if "409" ∈ statusKeysT post then 0 else 1)
    ∧ (∀ (doc : Json) (link : Option String) (base : String) (pathsV : JsVal)
        (lines c1u c1t : List EmitLine),
        JsVal.sget (some doc) "paths" = some pathsV →
        generateTestLines doc link base = some lines →
        emitClass1Route doc (pathListSorted pathsV) "/users" = some c1u →
        emitClass1Route doc (pathListSorted pathsV) "/trainees" = some c1t →
        countWarnings lines = countWarnings c1u + countWarnings c1t) := by
  constructor
  · intro doc pl pr item post seg _ hfind hpost htruthy h5
    rw [emitClass1Route] at h5
    simp only [hfind] at h5
    rw [hpost, bind_some_red] at h5
    rw [if_pos htruthy] at h5
    cases hE : extractReqExampleC1 doc post with
    | none => rw [hE] at h5; cases h5
    | some eb =>
      rw [hE, bind_some_red] at h5
      simp only [Option.pure_def] at h5
      cases Option.some.inj h5
      rw [countWarnings_append]
      have hmap : countWarnings (((sortStatusCodes (statusKeysT post)).filter
          (fun c => c ≠ "500")).map (fun code =>
            EmitLine.test "POST" pr code (.json (coalesceObj eb))
              (if (post.oget "callback").truthy then .fieldCb "message" else .noCb))) = 0 := by
        refine countWarnings_eq_zero ?_
        intro l hl
        obtain ⟨c, _, rfl⟩ := List.mem_map.mp hl
        simp
      rw [hmap]
      have hmem : ((sortStatusCodes (statusKeysT post)).filter
          (fun c => c ≠ "500")).contains "409" = ("409" ∈ statusKeysT post : Bool) := by
        simp [List.mem_filter, mem_stableSortLe, sortStatusCodes]
      by_cases h409 : "409" ∈ statusKeysT post
      · rw [if_pos h409]
        have : ((sortStatusCodes (statusKeysT post)).filter
            (fun c => c ≠ "500")).contains "409" = true := by
          rw [hmem]; simpa using h409
        rw [if_pos this]
        rfl
      · rw [if_neg h409]
        have : ¬ ((sortStatusCodes (statusKeysT post)).filter
            (fun c => c ≠ "500")).contains "409" = true := by
          rw [hmem]; simpa using h409
        rw [if_neg this]
        rfl
  · intro doc link base pathsV lines c1u c1t hpaths hg hc1u hc1t
    rw [generateTestLines] at hg
    rw [hpaths, bind_some_red] at hg
    simp only [hc1u] at hg
    rw [bind_some_red] at hg
    simp only [hc1t] at hg
    rw [bind_some_red] at hg
    cases hses : emitSessionsRoute doc (pathListSorted pathsV) with
    | none => rw [hses] at hg; cases hg
    | some ses =>
      rw [hses, bind_some_red] at hg
      cases hp3 : mapMO (fun it => emitPass3Route doc it.1 it.2) (pathListSorted pathsV) with
      | none => rw [hp3] at hg; cases hg
      | some p3parts =>
        rw [hp3, bind_some_red] at hg
        simp only [Option.pure_def] at hg
        cases Option.some.inj hg
        rw [importLine, countWarnings, List.countP_cons]
        simp only [show (EmitLine.raw ("import \x7b "
            ++ String.intercalate ", " (importHelpers (preambleLines link base ++ c1u ++ c1t
              ++ ses ++ p3parts.flatten ++ [.raw "", .raw "runQueuedTests();"]))
            ++ " \x7d from \"../src/test_helpers\";") = EmitLine.warning) = False by simp]
        rw [if_neg (by simp)]
        rw [← countWarnings]
        repeat rw [countWarnings_append]
        have hpre : countWarnings (preambleLines link base) = 0 := by
          cases link <;> rfl
        have hflat : countWarnings p3parts.flatten = 0 := by
          refine countWarnings_eq_zero ?_
          intro l hl
          obtain ⟨part, hpart, hlp⟩ := List.mem_flatten.mp hl
          obtain ⟨it, _, hit⟩ := mapMO_mem hp3 part hpart
          have hnw := emitPass3Route_no_warning hit
          rw [countWarnings, List.countP_eq_zero] at hnw
          simpa using hnw l hlp
        have hsuf : countWarnings [EmitLine.raw "", EmitLine.raw "runQueuedTests();"] = 0 := rfl
        rw [hpre, emitSessionsRoute_no_warning hses, hflat, hsuf]
        omega

def docC9 : Json :=
  .obj [("paths", .obj [("/users", .obj [("post", .obj [("responses",
    .obj [("201", .obj [])])])])])]

def postC9 : Json := .obj [("responses", .obj [("201", .obj [])])]

theorem class1_missing_409_warning_witness :
    emitClass1Route docC9 (pathListSorted (JsVal.oget (some docC9) "paths")) "/users"
      = some [EmitLine.test "POST" "/users" "201" (.json (.obj [])) .noCb, .warning]
    ∧ countWarnings [EmitLine.test "POST" "/users" "201" (.json (.obj [])) .noCb, .warning]
      = (if "409" ∈ statusKeysT (some postC9) then 0 else 1)
    ∧ (if "409" ∈ statusKeysT (some postC9) then (0 : Nat) else 1) = 1 := by
  refine ⟨rfl, ?_, by decide⟩
  exact class1_missing_409_warning.1 docC9
    (pathListSorted (JsVal.oget (some docC9) "paths")) "/users"
    ("/users", .obj [("post", postC9)]) (some postC9)
    [EmitLine.test "POST" "/users" "201" (.json (.obj [])) .noCb, .warning]
    (Or.inl rfl) rfl rfl rfl rfl

/- ------------------------------------------------------------------
   Claim C2 — emitted body and assertion-callback precedence
   ------------------------------------------------------------------ -/

/-- The test line the claim describes for a non-GET/DELETE triple: body is
the extracted request example (or `{}` when none), and the callback follows
the claim's precedence — (a) multiple fields-with-examples: assert all;
(b) else a response example object with at least one field: assert the FIRST
field; (c) else 4xx/5xx: assert `message`; (d) else none. -/
def specC2Line (doc : Json) (route method : String) (detail : JsVal)
    (code : String) : Option EmitLine := do
  let eb ← extractReqExample doc detail
  let info ← respInfo doc detail code
  let body : BodySpec :=
    match eb with
    | some b => .json b
    | none => .json (.obj [])
  let cb : CbSpec :=
    if 1 < info.fieldsWithExamples.length then .fieldsCb info.fieldsWithExamples
    else if info.responseExample.truthy ∧ info.responseExample.typeofObject
        ∧ info.responseExample.keys ≠ [] then
      .fieldsCb [info.responseExample.keys.headD ""]
    else if isErrStatus code then .fieldCb "message"
    else .noCb
  pure (.test (jsToUpper method) route code body cb)

def docC2 : Json := .obj []

def detailC2 : Json :=
  .obj [("requestBody", .obj [("content", .obj [("application/json", .obj [
      ("example", .obj [("x", .num 1)])])])]),
    ("responses", .obj [("200", .obj [("content", .obj [("application/json", .obj [
      ("schema", .obj [("properties", .obj [("a", .obj [("example", .num 5)])])])])])])])]

/-- C2 counterexample: a PATCH triple with a request example `{x: 1}` and a
response schema exposing a single field-with-examples. The code emits body
`{}` and asserts that one field; the claim requires body `{x: 1}` with no
assertion (one field is not "multiple", no response example object exists
and 200 is not an error code). -/
theorem emitter_body_callback_counterexample :
    emitPass3Line docC2 "/x" "patch" (some detailC2) "200"
      = some (.test "PATCH" "/x" "200" (.json (.obj [])) (.fieldsCb ["a"]))
    ∧ specC2Line docC2 "/x" "patch" (some detailC2) "200"
      = some (.test "PATCH" "/x" "200" (.json (.obj [("x", .num 1)])) .noCb)
    ∧ EmitLine.test "PATCH" "/x" "200" (.json (.obj [])) (.fieldsCb ["a"])
        ≠ .test "PATCH" "/x" "200" (.json (.obj [("x", .num 1)])) .noCb := by
  refine ⟨rfl, rfl, by decide⟩

/-- The body the code actually emits (lines 836-855). -/
def amendedBody (eb : JsVal) (info : RespInfo) : BodySpec :=
  if info.fieldsWithExamples ≠ [] then .json (.obj [])
  else if info.responseExample.truthy ∧ info.responseExample.typeofObject then
    .json (coalesceObj eb)
  else
    match eb with
    | some b => .json b
    | none => .json (.obj [])

/-- The callback the code actually emits (lines 836-855). -/
def amendedCb (eb : JsVal) (info : RespInfo) (code : String) : CbSpec :=
  if info.fieldsWithExamples ≠ [] then .fieldsCb info.fieldsWithExamples
  else if info.responseExample.truthy ∧ info.responseExample.typeofObject then
    (if info.responseExample.keys ≠ [] then .fieldsCb info.responseExample.keys else .noCb)
  else if eb.isSome then .noCb
  else if isErrStatus code then .fieldCb "message"
  else .noCb

/-- C2 amended: for a non-GET/DELETE planned triple, the emitted line's body
is `{}` whenever the response schema exposes at least one field-with-example
(all of which are then asserted) or a truthy response-example object was
found (body then being the request example coalesced to `{}`); only with
neither does the body fall back to the bare request example. The callback
precedence is: (a) at least one (not only "multiple") field-with-examples:
assert ALL of them; (b) else a response example object with at least one
field: assert ALL its fields (not only the first); (c) else, when a request
example exists, no assertion (even for 4xx/5xx); (d) else 4xx/5xx: assert
`message`; (e) else none. -/
theorem emitter_precedence_amended :
    ∀ (doc : Json) (route method : String) (detail : JsVal) (code : String)
      (eb : JsVal) (info : RespInfo),
      ¬ ((["get", "delete"].contains (jsToLower method)) = true) →
      extractReqExample doc detail = some eb →
      respInfo doc detail code = some info →
      emitPass3Line doc route method detail code
        = some (.test (jsToUpper method) route code (amendedBody eb info)
            (amendedCb eb info code)) := by
  intro doc route method detail code eb info hgd hE hR
  rw [emitPass3Line, if_neg hgd, hE, bind_some_red, hR, bind_some_red]
  by_cases h1 : info.fieldsWithExamples ≠ []
  · rw [if_pos h1]
    simp [amendedBody, amendedCb, h1]
  · rw [if_neg h1]
    by_cases h2 : (info.responseExample.truthy ∧ info.responseExample.typeofObject)
    · rw [if_pos (by simpa using h2)]
      by_cases h3 : info.responseExample.keys ≠ []
      · rw [if_pos h3]
        simp [amendedBody, amendedCb, h1, h2, h3]
      · rw [if_neg h3]
        simp [amendedBody, amendedCb, h1, h2, h3]
    · rw [if_neg (by simpa using h2)]
      cases heb : eb with
      | some b =>
        simp [amendedBody, amendedCb, h1, h2, heb]
      | none =>
        cases hp : parseIntJS code with
        | some n =>
          by_cases h4 : 400 ≤ n ∧ n < 600
          · simp [amendedBody, amendedCb, h1, h2, isErrStatus, hp, h4.1, h4.2]
          · simp only [amendedBody, amendedCb, isErrStatus, hp, h1, h2]
            simp [h4, h1, h2]
        | none =>
          simp [amendedBody, amendedCb, h1, h2, isErrStatus, hp]

theorem emitter_precedence_amended_witness :
    emitPass3Line docC2 "/x" "patch" (some detailC2) "200"
      = some (.test "PATCH" "/x" "200"
          (amendedBody (some (.obj [("x", .num 1)])) ⟨["a"], none⟩)
          (amendedCb (some (.obj [("x", .num 1)])) ⟨["a"], none⟩ "200")) := by
  exact emitter_precedence_amended docC2 "/x" "patch" (some detailC2) "200"
    (some (.obj [("x", .num 1)])) ⟨["a"], none⟩ (by decide) rfl rfl

/- ------------------------------------------------------------------
   Claim C4 — status-code ordering and exclusion of "500"
   ------------------------------------------------------------------ -/

theorem lowChar_upChar {c U L : Char}
    (huniq : ∀ p ∈ caseEquivPairs, p.2 = U → p.1 = L)
    (hLlow : lowChar L = L) (hUlow : lowChar U = L)
    (h : upChar c = U) : lowChar c = L := by
  rw [upChar] at h
  cases hf : caseEquivPairs.find? (fun p => p.1 = c) with
  | none =>
    rw [hf] at h
    simp only [Option.map_none', Option.getD_none] at h
    subst h
    exact hUlow
  | some pair =>
    rw [hf] at h
    simp only [Option.map_some', Option.getD_some] at h
    have hpc : pair.1 = c := by simpa using List.find?_some hf
    have hL := huniq pair (List.mem_of_find?_eq_some hf) h
    rw [← hpc, hL]
    exact hLlow

theorem map_cons_inv {f : Char → Char} {l : List Char} {c : Char} {r : List Char}
    (h : l.map f = c :: r) : ∃ a t, l = a :: t ∧ f a = c ∧ t.map f = r := by
  cases l with
  | nil => cases h
  | cons a t =>
    rw [List.map_cons] at h
    cases h
    exact ⟨a, t, rfl, rfl, rfl⟩

/-- A method key whose upper-casing is `POST` lower-cases to `post` — so the
pass-3 skip of the prioritized routes' POST operations catches every spelling
the POST group selector matches. -/
theorem jsToLower_eq_post {m : String} (h : jsToUpper m = "POST") :
    jsToLower m = "post" := by
  have hd : m.data.map upChar = ['P', 'O', 'S', 'T'] := congrArg String.data h
  obtain ⟨a, t1, he1, ha, h1⟩ := map_cons_inv hd
  obtain ⟨b, t2, he2, hb, h2⟩ := map_cons_inv h1
  obtain ⟨c, t3, he3, hc, h3⟩ := map_cons_inv h2
  obtain ⟨d, t4, he4, hdd, h4⟩ := map_cons_inv h3
  have ht4 : t4 = [] := List.map_eq_nil_iff.mp h4
  have la : lowChar a = 'p' := lowChar_upChar (by decide) (by decide) (by decide) ha
  have lb : lowChar b = 'o' := lowChar_upChar (by decide) (by decide) (by decide) hb
  have lc : lowChar c = 's' := lowChar_upChar (by decide) (by decide) (by decide) hc
  have ld : lowChar d = 't' := lowChar_upChar (by decide) (by decide) (by decide) hdd
  have : jsToLower m = String.mk (m.data.map lowChar) := rfl
  rw [this, he1, he2, he3, he4, ht4]
  simp [la, lb, lc, ld]

/-- The claim's per-group ordering relation: an error-range code never
follows a non-error code, and codes of the same class are in ascending
numeric order. -/
def codeOrdered (a b : String) : Prop :=
  (isErrStatus a = true ∧ isErrStatus b = false)
  ∨ (isErrStatus a = isErrStatus b ∧ (parseIntJS a).getD 0 ≤ (parseIntJS b).getD 0)

/-- A list emitted by one status-code site: the sorted responses keys minus
`"500"`. -/
def GoodCodes (codes : List String) : Prop :=
  ∃ keys, codes = (sortStatusCodes keys).filter (fun c => c ≠ "500")

def NumCode (c : String) : Prop := (parseIntJS c).isSome

instance (c : String) : Decidable (NumCode c) :=
  inferInstanceAs (Decidable ((parseIntJS c).isSome = true))

theorem statusLe_total_num {a b : String} (ha : NumCode a) (hb : NumCode b) :
    statusLe a b = true ∨ statusLe b a = true := by
  obtain ⟨x, hx⟩ := Option.isSome_iff_exists.mp ha
  obtain ⟨y, hy⟩ := Option.isSome_iff_exists.mp hb
  by_cases ex : 400 ≤ x ∧ x < 600 <;> by_cases ey : 400 ≤ y ∧ y < 600 <;>
    simp [statusLe, isErrStatus, hx, hy, ex, ey] <;> omega

theorem statusLe_trans_num {a b c : String} (ha : NumCode a) (hb : NumCode b)
    (hc : NumCode c) (hab : statusLe a b = true) (hbc : statusLe b c = true) :
    statusLe a c = true := by
  obtain ⟨x, hx⟩ := Option.isSome_iff_exists.mp ha
  obtain ⟨y, hy⟩ := Option.isSome_iff_exists.mp hb
  obtain ⟨z, hz⟩ := Option.isSome_iff_exists.mp hc
  by_cases ex : 400 ≤ x ∧ x < 600 <;> by_cases ey : 400 ≤ y ∧ y < 600 <;>
    by_cases ez : 400 ≤ z ∧ z < 600 <;>
      simp [statusLe, isErrStatus, hx, hy, hz, ex, ey, ez] at hab hbc ⊢ <;> omega

theorem codeOrdered_of_statusLe {a b : String} (ha : NumCode a) (hb : NumCode b)
    (h : statusLe a b = true) : codeOrdered a b := by
  obtain ⟨x, hx⟩ := Option.isSome_iff_exists.mp ha
  obtain ⟨y, hy⟩ := Option.isSome_iff_exists.mp hb
  by_cases ex : 400 ≤ x ∧ x < 600 <;> by_cases ey : 400 ≤ y ∧ y < 600 <;>
    simp [statusLe, isErrStatus, hx, hy, ex, ey, codeOrdered] at h ⊢ <;> omega

/-- Every site-emitted code list whose members are numeric is ordered as the
claim demands. -/
theorem pairwise_goodCodes {codes : List String} (hG : GoodCodes codes)
    (hnum : ∀ c ∈ codes, NumCode c) : codes.Pairwise codeOrdered := by
  obtain ⟨keys, rfl⟩ := hG
  have hkeys : ∀ k ∈ keys, NumCode k := by
    intro k hk
    by_cases h5 : k = "500"
    · subst h5
      show (parseIntJS "500").isSome = true
      rfl
    · refine hnum k ?_
      rw [List.mem_filter]
      exact ⟨mem_stableSortLe.mpr hk, by simpa using h5⟩
  have hsorted : (sortStatusCodes keys).Pairwise (fun a b => statusLe a b = true) := by
    refine pairwise_stableSortLe (P := NumCode)
      (fun a b ha hb => statusLe_total_num ha hb)
      (fun a b c ha hb hc => statusLe_trans_num ha hb hc) ?_
    intro a ha
    exact hkeys a ha
  refine List.Pairwise.imp_of_mem ?_ (hsorted.filter _)
  intro a b hamem hbmem hle
  exact codeOrdered_of_statusLe
    (hnum a hamem) (hnum b hbmem) hle

/-- Prepending the sanity probe's `400` preserves the claimed order. -/
theorem pairwise_cons_400 {codes : List String}
    (hnum : ∀ c ∈ codes, NumCode c) (hp : codes.Pairwise codeOrdered) :
    ("400" :: codes).Pairwise codeOrdered := by
  refine List.pairwise_cons.mpr ⟨?_, hp⟩
  intro b hb
  obtain ⟨y, hy⟩ := Option.isSome_iff_exists.mp (hnum b hb)
  have h400 : parseIntJS "400" = some 400 := rfl
  by_cases ey : 400 ≤ y ∧ y < 600 <;>
    simp [codeOrdered, isErrStatus, hy, ey, h400] <;> omega

/-- The status codes of the test lines emitted for one (method, route)
group, in emission order. -/
def testCodesFor (lines : List EmitLine) (method route : String) : List String :=
  lines.filterMap (fun l => match l with
    | .test m r c _ _ => if m = method ∧ r = route then some c else none
    | _ => none)

theorem testCodesFor_append (a b : List EmitLine) (M R : String) :
    testCodesFor (a ++ b) M R = testCodesFor a M R ++ testCodesFor b M R :=
  List.filterMap_append _ _ _

theorem testCodesFor_preamble (link : Option String) (base M R : String) :
    testCodesFor (preambleLines link base) M R
      = if M = "POST" ∧ R = "/sessions" then ["400"] else [] := by
  by_cases h : M = "POST" ∧ R = "/sessions" <;> cases link <;>
    simp [preambleLines, testCodesFor, h] <;>
      exact fun h1 h2 => h ⟨h1.symm, h2.symm⟩

theorem testCodesFor_map_test (codes : List String) (m r : String)
    (f : String → BodySpec) (g : String → CbSpec) (M R : String) :
    testCodesFor (codes.map (fun c => EmitLine.test m r c (f c) (g c))) M R
      = if m = M ∧ r = R then codes else [] := by
  induction codes with
  | nil => by_cases h : m = M ∧ r = R <;> simp [testCodesFor, h]
  | cons c cs ih =>
    by_cases h : m = M ∧ r = R <;>
      simp [testCodesFor, h] <;> simpa [testCodesFor, h] using ih

theorem testCodesFor_class1 {doc : Json} {pl : List (String × Json)} {pr : String}
    {seg : List EmitLine} (h : emitClass1Route doc pl pr = some seg) :
    ∃ codes, GoodCodes codes
      ∧ ∀ M R, testCodesFor seg M R = if M = "POST" ∧ R = pr then codes else [] := by
  rw [emitClass1Route] at h
  cases hf : findRoute pl pr with
  | none =>
    simp only [hf] at h
    cases Option.some.inj h
    exact ⟨[], ⟨[], rfl⟩, fun M R => by
      by_cases hMR : M = "POST" ∧ R = pr <;> simp [testCodesFor, hMR]⟩
  | some item =>
    simp only [hf] at h
    cases hp : JsVal.sget (some item.2) "post" with
    | none => rw [hp] at h; cases h
    | some post =>
      rw [hp, bind_some_red] at h
      split at h
      · cases hE : extractReqExampleC1 doc post with
        | none => rw [hE] at h; cases h
        | some eb =>
          rw [hE, bind_some_red] at h
          simp only [Option.pure_def] at h
          cases Option.some.inj h
          refine ⟨(sortStatusCodes (statusKeysT post)).filter (fun c => c ≠ "500"),
            ⟨statusKeysT post, rfl⟩, ?_⟩
          intro M R
          rw [testCodesFor_append]
          have hW : testCodesFor (if ((sortStatusCodes (statusKeysT post)).filter
              (fun c => c ≠ "500")).contains "409" then ([] : List EmitLine)
              else [.warning]) M R = [] := by
            split <;> simp [testCodesFor]
          rw [hW, List.append_nil]
          have := testCodesFor_map_test
            ((sortStatusCodes (statusKeysT post)).filter (fun c => c ≠ "500"))
            "POST" pr (fun _ => .json (coalesceObj eb))
            (fun _ => if (post.oget "callback").truthy then .fieldCb "message" else .noCb) M R
          rw [this]
          by_cases hMR : M = "POST" ∧ R = pr
          · rw [if_pos ⟨hMR.1.symm, hMR.2.symm⟩, if_pos hMR]
          · rw [if_neg (fun hc => hMR ⟨hc.1.symm, hc.2.symm⟩), if_neg hMR]
      · cases Option.some.inj h
        exact ⟨[], ⟨[], rfl⟩, fun M R => by
          by_cases hMR : M = "POST" ∧ R = pr <;> simp [testCodesFor, hMR]⟩

theorem testCodesFor_sessions {doc : Json} {pl : List (String × Json)}
    {seg : List EmitLine} (h : emitSessionsRoute doc pl = some seg) :
    ∃ codes, GoodCodes codes
      ∧ ∀ M R, testCodesFor seg M R
          = if M = "POST" ∧ R = "/sessions" then codes else [] := by
  rw [emitSessionsRoute] at h
  cases hf : findRoute pl "/sessions" with
  | none =>
    simp only [hf] at h
    cases Option.some.inj h
    exact ⟨[], ⟨[], rfl⟩, fun M R => by
      by_cases hMR : M = "POST" ∧ R = "/sessions" <;> simp [testCodesFor, hMR]⟩
  | some item =>
    simp only [hf] at h
    cases hp : JsVal.sget (some item.2) "post" with
    | none => rw [hp] at h; cases h
    | some post =>
      rw [hp, bind_some_red] at h
      split at h
      · cases hE : extractReqExampleC1 doc post with
        | none => rw [hE] at h; cases h
        | some eb =>
          rw [hE, bind_some_red] at h
          simp only [Option.pure_def] at h
          cases Option.some.inj h
          refine ⟨(sortStatusCodes (statusKeysT post)).filter (fun c => c ≠ "500"),
            ⟨statusKeysT post, rfl⟩, ?_⟩
          intro M R
          have := testCodesFor_map_test
            ((sortStatusCodes (statusKeysT post)).filter (fun c => c ≠ "500"))
            "POST" "/sessions" (fun _ => .json (coalesceObj eb))
            (fun _ => if (post.oget "callback").truthy then .fieldCb "message" else .noCb) M R
          rw [this]
          by_cases hMR : M = "POST" ∧ R = "/sessions"
          · rw [if_pos ⟨hMR.1.symm, hMR.2.symm⟩, if_pos hMR]
          · rw [if_neg (fun hc => hMR ⟨hc.1.symm, hc.2.symm⟩), if_neg hMR]
      · cases Option.some.inj h
        exact ⟨[], ⟨[], rfl⟩, fun M R => by
          by_cases hMR : M = "POST" ∧ R = "/sessions" <;> simp [testCodesFor, hMR]⟩

theorem testCodesFor_cons_test (m r c : String) (b : BodySpec) (cb : CbSpec)
    (rest : List EmitLine) (M R : String) :
    testCodesFor (EmitLine.test m r c b cb :: rest) M R
      = if m = M ∧ r = R then c :: testCodesFor rest M R else testCodesFor rest M R := by
  rw [testCodesFor, List.filterMap_cons]
  by_cases h : m = M ∧ r = R <;> simp [h, testCodesFor]

theorem testCodesFor_of_forall₂ {doc : Json} {r m : String} {d : JsVal}
    {codes : List String} {out : List EmitLine}
    (h : List.Forall₂ (fun c line => emitPass3Line doc r m d c = some line) codes out) :
    ∀ M R, testCodesFor out M R = if M = jsToUpper m ∧ R = r then codes else [] := by
  induction h with
  | nil =>
    intro M R
    by_cases hMR : M = jsToUpper m ∧ R = r <;> simp [testCodesFor, hMR]
  | cons hc htail ih =>
    intro M R
    obtain ⟨b, cb, rfl⟩ := emitPass3Line_shape hc
    rw [testCodesFor_cons_test]
    by_cases hMR : M = jsToUpper m ∧ R = r
    · rw [if_pos ⟨hMR.1.symm, hMR.2.symm⟩, ih M R, if_pos hMR, if_pos hMR]
    · rw [if_neg (fun hc' => hMR ⟨hc'.1.symm, hc'.2.symm⟩), ih M R, if_neg hMR, if_neg hMR]

theorem testCodesFor_pass3Method {doc : Json} {r m : String} {d : Json}
    {out : List EmitLine} (h : emitPass3Method doc r m d = some out) :
    ∃ codes, GoodCodes codes
      ∧ ∀ M R, testCodesFor out M R = if M = jsToUpper m ∧ R = r then codes else [] := by
  rw [emitPass3Method] at h
  cases hK : statusKeys? d with
  | none => rw [hK] at h; cases h
  | some ks =>
    rw [hK, bind_some_red] at h
    exact ⟨(sortStatusCodes ks).filter (fun c => c ≠ "500"), ⟨ks, rfl⟩,
      testCodesFor_of_forall₂ (mapMO_eq_forall₂.mp h)⟩

/-- The skip/emit relation of one pass-3 route iteration. -/
def p3rel (doc : Json) (r : String) (md : String × Json) (part : List EmitLine) : Prop :=
  (if (prioritizedRoutes.contains r ∨ r = "/sessions") ∧ jsToLower md.1 = "post" then
    some [] else emitPass3Method doc r md.1 md.2) = some part

theorem p3flat_off_route {doc : Json} {r : String} :
    ∀ {ents : List (String × Json)} {parts : List (List EmitLine)},
      List.Forall₂ (p3rel doc r) ents parts →
      ∀ M R, R ≠ r → testCodesFor parts.flatten M R = [] := by
  intro ents parts h
  induction h with
  | nil => intro M R _; simp [testCodesFor]
  | cons hc htail ih =>
    intro M R hR
    rename_i md part ents' parts'
    rw [List.flatten_cons, testCodesFor_append, ih M R hR, List.append_nil]
    rw [p3rel] at hc
    split at hc
    · cases Option.some.inj hc; simp [testCodesFor]
    · obtain ⟨codes, _, heq⟩ := testCodesFor_pass3Method hc
      rw [heq]
      rw [if_neg (fun hmr => hR hmr.2)]

theorem p3flat_no_upper {doc : Json} {r M : String} :
    ∀ {ents : List (String × Json)} {parts : List (List EmitLine)},
      List.Forall₂ (p3rel doc r) ents parts →
      (∀ md ∈ ents, jsToUpper md.1 ≠ M) →
      ∀ R, testCodesFor parts.flatten M R = [] := by
  intro ents parts h
  induction h with
  | nil => intro _ R; simp [testCodesFor]
  | cons hc htail ih =>
    intro hno R
    rename_i md part ents' parts'
    rw [List.flatten_cons, testCodesFor_append,
      ih (fun md' hmd' => hno md' (by simp [hmd'])) R, List.append_nil]
    rw [p3rel] at hc
    split at hc
    · cases Option.some.inj hc; simp [testCodesFor]
    · obtain ⟨codes, _, heq⟩ := testCodesFor_pass3Method hc
      rw [heq]
      rw [if_neg (fun hmr => hno md (by simp) hmr.1.symm)]

theorem p3flat_codes {doc : Json} {r : String} :
    ∀ {ents : List (String × Json)} {parts : List (List EmitLine)},
      List.Forall₂ (p3rel doc r) ents parts →
      (ents.map (fun md => jsToUpper md.1)).Nodup →
      ∀ M R,
        testCodesFor parts.flatten M R = []
        ∨ (R = r ∧ ∃ md ∈ ents, jsToUpper md.1 = M
            ∧ ¬((prioritizedRoutes.contains r ∨ r = "/sessions")
                ∧ jsToLower md.1 = "post")
            ∧ ∃ codes, GoodCodes codes ∧ testCodesFor parts.flatten M R = codes) := by
  intro ents parts h
  induction h with
  | nil => intro _ M R; left; simp [testCodesFor]
  | cons hc htail ih =>
    intro hnd M R
    rename_i md part ents' parts'
    rw [List.map_cons, List.nodup_cons] at hnd
    rw [List.flatten_cons, testCodesFor_append]
    have hcs := hc
    rw [p3rel] at hcs
    split at hcs
    · rename_i hskip
      cases Option.some.inj hcs
      rw [show testCodesFor [] M R = [] from rfl, List.nil_append]
      rcases ih hnd.2 M R with he | ⟨hRr, md', hmd', hup, hns, codes, hG, heq⟩
      · left; exact he
      · right
        exact ⟨hRr, md', by simp [hmd'], hup, hns, codes, hG, heq⟩
    · rename_i hskip
      obtain ⟨codesP, hGP, heqP⟩ := testCodesFor_pass3Method hcs
      by_cases hMR : M = jsToUpper md.1 ∧ R = r
      · have hrest : testCodesFor parts'.flatten M R = [] := by
          refine p3flat_no_upper htail ?_ R
          intro md' hmd' hup'
          exact hnd.1 (by
            rw [List.mem_map]
            exact ⟨md', hmd', by rw [hup', hMR.1]⟩)
        rw [hrest, List.append_nil, heqP, if_pos hMR]
        right
        exact ⟨hMR.2, md, by simp, hMR.1.symm, hskip, codesP, hGP, rfl⟩
      · rw [heqP, if_neg hMR, List.nil_append]
        rcases ih hnd.2 M R with he | ⟨hRr, md', hmd', hup, hns, codes, hG, heq⟩
        · left; exact he
        · right
          exact ⟨hRr, md', by simp [hmd'], hup, hns, codes, hG, heq⟩

theorem class1_no500 {doc : Json} {pl : List (String × Json)} {pr : String}
    {seg : List EmitLine} (h : emitClass1Route doc pl pr = some seg) :
    ∀ m r c b cb, EmitLine.test m r c b cb ∈ seg → c ≠ "500" := by
  rw [emitClass1Route] at h
  cases hf : findRoute pl pr with
  | none =>
    simp only [hf] at h
    cases Option.some.inj h
    intro m r c b cb hc
    cases hc
  | some item =>
    simp only [hf] at h
    cases hp : JsVal.sget (some item.2) "post" with
    | none => rw [hp] at h; cases h
    | some post =>
      rw [hp, bind_some_red] at h
      split at h
      · cases hE : extractReqExampleC1 doc post with
        | none => rw [hE] at h; cases h
        | some eb =>
          rw [hE, bind_some_red] at h
          simp only [Option.pure_def] at h
          cases Option.some.inj h
          intro m r c b cb hc
          rcases List.mem_append.mp hc with hc1 | hc2
          · obtain ⟨c', hc', heq⟩ := List.mem_map.mp hc1
            cases heq
            simpa using (List.mem_filter.mp hc').2
          · split at hc2
            · cases hc2
            · rcases List.mem_cons.mp hc2 with hw | hw <;> cases hw
      · cases Option.some.inj h
        intro m r c b cb hc
        cases hc

theorem sessions_no500 {doc : Json} {pl : List (String × Json)}
    {seg : List EmitLine} (h : emitSessionsRoute doc pl = some seg) :
    ∀ m r c b cb, EmitLine.test m r c b cb ∈ seg → c ≠ "500" := by
  rw [emitSessionsRoute] at h
  cases hf : findRoute pl "/sessions" with
  | none =>
    simp only [hf] at h
    cases Option.some.inj h
    intro m r c b cb hc
    cases hc
  | some item =>
    simp only [hf] at h
    cases hp : JsVal.sget (some item.2) "post" with
    | none => rw [hp] at h; cases h
    | some post =>
      rw [hp, bind_some_red] at h
      split at h
      · cases hE : extractReqExampleC1 doc post with
        | none => rw [hE] at h; cases h
        | some eb =>
          rw [hE, bind_some_red] at h
          simp only [Option.pure_def] at h
          cases Option.some.inj h
          intro m r c b cb hc
          obtain ⟨c', hc', heq⟩ := List.mem_map.mp hc
          cases heq
          simpa using (List.mem_filter.mp hc').2
      · cases Option.some.inj h
        intro m r c b cb hc
        cases hc

theorem forall₂_no500 {doc : Json} {r0 m0 : String} {d : JsVal}
    {codes : List String} {out : List EmitLine}
    (h : List.Forall₂ (fun c line => emitPass3Line doc r0 m0 d c = some line) codes out)
    (hcodes : ∀ c ∈ codes, c ≠ "500") :
    ∀ m r c b cb, EmitLine.test m r c b cb ∈ out → c ≠ "500" := by
  induction h with
  | nil =>
    intro m r c b cb hc
    cases hc
  | cons hc0 htail ih =>
    rename_i c0 line cs rest
    intro m r c b cb hc
    rcases List.mem_cons.mp hc with hh | hh
    · obtain ⟨b', cb', hline⟩ := emitPass3Line_shape hc0
      rw [hline] at hh
      cases hh
      exact hcodes c0 (by simp)
    · exact ih (fun c' hc' => hcodes c' (by simp [hc'])) m r c b cb hh

theorem p3method_no500 {doc : Json} {r0 m0 : String} {d : Json}
    {out : List EmitLine} (h : emitPass3Method doc r0 m0 d = some out) :
    ∀ m r c b cb, EmitLine.test m r c b cb ∈ out → c ≠ "500" := by
  rw [emitPass3Method] at h
  cases hK : statusKeys? d with
  | none => rw [hK] at h; cases h
  | some ks =>
    rw [hK, bind_some_red] at h
    exact forall₂_no500 (mapMO_eq_forall₂.mp h)
      (fun c hc => by simpa using (List.mem_filter.mp hc).2)

theorem p3route_no500 {doc : Json} {r0 : String} {ms : Json}
    {out : List EmitLine} (h : emitPass3Route doc r0 ms = some out) :
    ∀ m r c b cb, EmitLine.test m r c b cb ∈ out → c ≠ "500" := by
  rw [emitPass3Route] at h
  cases hE : jsEntries? (some ms) with
  | none => rw [hE] at h; cases h
  | some ents =>
    rw [hE, bind_some_red] at h
    cases hP : mapMO (fun md =>
        if (prioritizedRoutes.contains r0 ∨ r0 = "/sessions") ∧ jsToLower md.1 = "post" then
          pure []
        else emitPass3Method doc r0 md.1 md.2) ents with
    | none => rw [hP] at h; cases h
    | some parts =>
      rw [hP, bind_some_red] at h
      simp only [Option.pure_def] at h
      cases Option.some.inj h
      intro m r c b cb hc
      obtain ⟨part, hpart, hlp⟩ := List.mem_flatten.mp hc
      obtain ⟨md, _, hmd⟩ := mapMO_mem hP part hpart
      by_cases hskip : (prioritizedRoutes.contains r0 ∨ r0 = "/sessions")
          ∧ jsToLower md.1 = "post"
      · rw [if_pos hskip] at hmd
        cases Option.some.inj hmd
        cases hlp
      · rw [if_neg hskip] at hmd
        exact p3method_no500 hmd m r c b cb hlp

theorem p3route_summary {doc : Json} {r0 : String} {ms : Json}
    {out : List EmitLine} (h : emitPass3Route doc r0 ms = some out)
    (hU : ∀ ents, jsEntries? (some ms) = some ents →
        (ents.map (fun md => jsToUpper md.1)).Nodup) :
    ∀ M R,
      (R ≠ r0 → testCodesFor out M R = [])
      ∧ (testCodesFor out M R = []
          ∨ ∃ codes, GoodCodes codes ∧ testCodesFor out M R = codes)
      ∧ (((prioritizedRoutes.contains R ∨ R = "/sessions") ∧ M = "POST") →
          testCodesFor out M R = []) := by
  rw [emitPass3Route] at h
  cases hE : jsEntries? (some ms) with
  | none => rw [hE] at h; cases h
  | some ents =>
    rw [hE, bind_some_red] at h
    cases hP : mapMO (fun md =>
        if (prioritizedRoutes.contains r0 ∨ r0 = "/sessions") ∧ jsToLower md.1 = "post" then
          pure []
        else emitPass3Method doc r0 md.1 md.2) ents with
    | none => rw [hP] at h; cases h
    | some parts =>
      rw [hP, bind_some_red] at h
      simp only [Option.pure_def] at h
      cases Option.some.inj h
      have hF : List.Forall₂ (p3rel doc r0) ents parts := by
        refine (mapMO_eq_forall₂.mp hP).imp ?_
        intro md part hmd
        exact hmd
      intro M R
      refine ⟨fun hR => p3flat_off_route hF M R hR, ?_, ?_⟩
      · rcases p3flat_codes hF (hU ents hE) M R with he | ⟨_, _, _, _, _, codes, hG, heq⟩
        · exact Or.inl he
        · exact Or.inr ⟨codes, hG, heq⟩
      · rintro ⟨hpri, rfl⟩
        by_cases hRr : R = r0
        · subst hRr
          rcases p3flat_codes hF (hU ents hE) "POST" R with he |
            ⟨_, md, _, hup, hns, _, _, _⟩
          · exact he
          · exact absurd ⟨hpri, jsToLower_eq_post hup⟩ hns
        · exact p3flat_off_route hF "POST" R hRr

theorem testCodesFor_cons_raw (s : String) (rest : List EmitLine) (M R : String) :
    testCodesFor (EmitLine.raw s :: rest) M R = testCodesFor rest M R := by
  simp [testCodesFor, List.filterMap_cons]

/-- The relation between pass-3's route list and its emitted chunks. -/
def p3routeRel (doc : Json) (it : String × Json) (part : List EmitLine) : Prop :=
  emitPass3Route doc it.1 it.2 = some part

theorem p3all_off {doc : Json} {M R : String} :
    ∀ {pl : List (String × Json)} {parts : List (List EmitLine)},
      List.Forall₂ (p3routeRel doc) pl parts →
      (∀ it ∈ pl, ∀ ents, jsEntries? (some it.2) = some ents →
          (ents.map (fun md => jsToUpper md.1)).Nodup) →
      R ∉ pl.map Prod.fst →
      testCodesFor parts.flatten M R = [] := by
  intro pl parts h
  induction h with
  | nil => intro _ _; simp [testCodesFor]
  | cons hc htail ih =>
    intro hUs hR
    rename_i it part pl' parts'
    rw [List.map_cons] at hR
    rw [List.flatten_cons, testCodesFor_append,
      ih (fun it' hit' => hUs it' (by simp [hit'])) (fun hm => hR (by simp [hm])),
      List.append_nil]
    exact ((p3route_summary hc (hUs it (by simp)) M R).1
      (fun hRr => hR (by simp [hRr])))

theorem p3all_codes {doc : Json} :
    ∀ {pl : List (String × Json)} {parts : List (List EmitLine)},
      List.Forall₂ (p3routeRel doc) pl parts →
      (pl.map Prod.fst).Nodup →
      (∀ it ∈ pl, ∀ ents, jsEntries? (some it.2) = some ents →
          (ents.map (fun md => jsToUpper md.1)).Nodup) →
      ∀ M R,
        (testCodesFor parts.flatten M R = []
          ∨ ∃ codes, GoodCodes codes ∧ testCodesFor parts.flatten M R = codes)
        ∧ (((prioritizedRoutes.contains R ∨ R = "/sessions") ∧ M = "POST") →
            testCodesFor parts.flatten M R = []) := by
  intro pl parts h
  induction h with
  | nil =>
    intro _ _ M R
    constructor
    · left; simp [testCodesFor]
    · intro _; simp [testCodesFor]
  | cons hc htail ih =>
    intro hnd hUs M R
    rename_i it part pl' parts'
    rw [List.map_cons, List.nodup_cons] at hnd
    have hsum := p3route_summary hc (hUs it (by simp)) M R
    have ihMR := ih hnd.2 (fun it' hit' => hUs it' (by simp [hit'])) M R
    rw [List.flatten_cons, testCodesFor_append]
    constructor
    · by_cases hRr : R = it.1
      · have hrest : testCodesFor parts'.flatten M R = [] := by
          refine p3all_off htail (fun it' hit' => hUs it' (by simp [hit'])) ?_
          rw [hRr]
          exact hnd.1
        rw [hrest, List.append_nil]
        exact hsum.2.1
      · rw [hsum.1 hRr, List.nil_append]
        exact ihMR.1
    · intro hcond
      rw [hsum.2.2 hcond, List.nil_append]
      exact ihMR.2 hcond

/-- C4: in the generated output, `"500"` never appears as an emitted test's
status code; and — with distinct route keys, per-route distinct
(upper-cased) method keys, and numeric status codes in the group — the codes
emitted for every (method, route) group are ordered with every 400-599 code
before all other codes and ascending numerically inside each of the two
classes. -/
theorem status_code_ordering :
    ∀ (doc : Json) (link : Option String) (base : String) (pathsV : JsVal)
      (lines : List EmitLine),
      JsVal.sget (some doc) "paths" = some pathsV →
      generateTestLines doc link base = some lines →
      (∀ m r c b cb, EmitLine.test m r c b cb ∈ lines → c ≠ "500")
      ∧ (((pathListSorted pathsV).map Prod.fst).Nodup →
          (∀ it ∈ pathListSorted pathsV, ∀ ents, jsEntries? (some it.2) = some ents →
              (ents.map (fun md => jsToUpper md.1)).Nodup) →
          ∀ M R, (∀ c ∈ testCodesFor lines M R, NumCode c) →
            (testCodesFor lines M R).Pairwise codeOrdered) := by
  intro doc link base pathsV lines hpaths hg
  rw [generateTestLines] at hg
  rw [hpaths, bind_some_red] at hg
  cases hc1u : emitClass1Route doc (pathListSorted pathsV) "/users" with
  | none => simp [hc1u] at hg
  | some c1u =>
  simp only [hc1u] at hg
  rw [bind_some_red] at hg
  cases hc1t : emitClass1Route doc (pathListSorted pathsV) "/trainees" with
  | none => simp [hc1t] at hg
  | some c1t =>
  simp only [hc1t] at hg
  rw [bind_some_red] at hg
  cases hses : emitSessionsRoute doc (pathListSorted pathsV) with
  | none => rw [hses] at hg; cases hg
  | some ses =>
  rw [hses, bind_some_red] at hg
  cases hp3 : mapMO (fun it => emitPass3Route doc it.1 it.2) (pathListSorted pathsV) with
  | none => rw [hp3] at hg; cases hg
  | some p3parts =>
  rw [hp3, bind_some_red] at hg
  simp only [Option.pure_def] at hg
  cases Option.some.inj hg
  have hF : List.Forall₂ (p3routeRel doc) (pathListSorted pathsV) p3parts := by
    refine (mapMO_eq_forall₂.mp hp3).imp ?_
    intro it part hit
    exact hit
  constructor
  · -- no "500" anywhere
    intro m r c b cb hmem
    rcases List.mem_cons.mp hmem with hh | hh
    · rw [importLine] at hh; cases hh
    rcases List.mem_append.mp hh with hh | hh
    swap
    · rcases List.mem_cons.mp hh with hw | hw
      · cases hw
      rcases List.mem_cons.mp hw with hw2 | hw2
      · cases hw2
      · cases hw2
    rcases List.mem_append.mp hh with hh | hflat
    swap
    · obtain ⟨part, hpart, hlp⟩ := List.mem_flatten.mp hflat
      obtain ⟨it, _, hit⟩ := mapMO_mem hp3 part hpart
      exact p3route_no500 hit m r c b cb hlp
    rcases List.mem_append.mp hh with hh | hsm
    swap
    · exact sessions_no500 hses m r c b cb hsm
    rcases List.mem_append.mp hh with hh | htm
    swap
    · exact class1_no500 hc1t m r c b cb htm
    rcases List.mem_append.mp hh with hpm | hum
    swap
    · exact class1_no500 hc1u m r c b cb hum
    · cases link <;> simp [preambleLines] at hpm <;>
        (obtain ⟨_, _, hc, _⟩ := hpm; rw [hc]; decide)
  · -- per-group ordering
    intro hnd hUs M R hnum
    obtain ⟨codesU, hGU, hequ⟩ := testCodesFor_class1 hc1u
    obtain ⟨codesT, hGT, heqt⟩ := testCodesFor_class1 hc1t
    obtain ⟨codesS, hGS, heqs⟩ := testCodesFor_sessions hses
    have hall := p3all_codes hF hnd hUs M R
    have heq : testCodesFor (importLine (importHelpers (preambleLines link base ++ c1u ++ c1t
          ++ ses ++ p3parts.flatten ++ [.raw "", .raw "runQueuedTests();"]))
          :: (preambleLines link base ++ c1u ++ c1t ++ ses ++ p3parts.flatten
            ++ [.raw "", .raw "runQueuedTests();"])) M R
        = (if M = "POST" ∧ R = "/sessions" then ["400"] else [])
          ++ (if M = "POST" ∧ R = "/users" then codesU else [])
          ++ (if M = "POST" ∧ R = "/trainees" then codesT else [])
          ++ (if M = "POST" ∧ R = "/sessions" then codesS else [])
          ++ testCodesFor p3parts.flatten M R := by
      rw [importLine, testCodesFor_cons_raw]
      rw [testCodesFor_append, testCodesFor_append, testCodesFor_append,
        testCodesFor_append, testCodesFor_append]
      rw [testCodesFor_preamble, hequ, heqt, heqs]
      rw [show testCodesFor [EmitLine.raw "", EmitLine.raw "runQueuedTests();"] M R = []
        from rfl]
      simp [List.append_assoc]
    rw [heq] at hnum ⊢
    by_cases hM : M = "POST"
    · subst hM
      by_cases hRu : R = "/users"
      · subst hRu
        rw [hall.2 (by decide)] at hnum ⊢
        have hred : (if ("POST" : String) = "POST" ∧ ("/users" : String) = "/sessions"
              then (["400"] : List String) else [])
            ++ (if ("POST" : String) = "POST" ∧ ("/users" : String) = "/users"
              then codesU else [])
            ++ (if ("POST" : String) = "POST" ∧ ("/users" : String) = "/trainees"
              then codesT else [])
            ++ (if ("POST" : String) = "POST" ∧ ("/users" : String) = "/sessions"
              then codesS else [])
            ++ ([] : List String) = codesU := by simp
        rw [hred] at hnum ⊢
        exact pairwise_goodCodes hGU hnum
      · by_cases hRt : R = "/trainees"
        · subst hRt
          rw [hall.2 (by decide)] at hnum ⊢
          have hred : (if ("POST" : String) = "POST" ∧ ("/trainees" : String) = "/sessions"
                then (["400"] : List String) else [])
              ++ (if ("POST" : String) = "POST" ∧ ("/trainees" : String) = "/users"
                then codesU else [])
              ++ (if ("POST" : String) = "POST" ∧ ("/trainees" : String) = "/trainees"
                then codesT else [])
              ++ (if ("POST" : String) = "POST" ∧ ("/trainees" : String) = "/sessions"
                then codesS else [])
              ++ ([] : List String) = codesT := by simp
          rw [hred] at hnum ⊢
          exact pairwise_goodCodes hGT hnum
        · by_cases hRs : R = "/sessions"
          · subst hRs
            rw [hall.2 (by decide)] at hnum ⊢
            have hred : (if ("POST" : String) = "POST" ∧ ("/sessions" : String) = "/sessions"
                  then (["400"] : List String) else [])
                ++ (if ("POST" : String) = "POST" ∧ ("/sessions" : String) = "/users"
                  then codesU else [])
                ++ (if ("POST" : String) = "POST" ∧ ("/sessions" : String) = "/trainees"
                  then codesT else [])
                ++ (if ("POST" : String) = "POST" ∧ ("/sessions" : String) = "/sessions"
                  then codesS else [])
                ++ ([] : List String) = "400" :: codesS := by simp
            rw [hred] at hnum ⊢
            refine pairwise_cons_400 ?_ (pairwise_goodCodes hGS ?_)
            · intro c hc
              exact hnum c (by simp [hc])
            · intro c hc
              exact hnum c (by simp [hc])
          · rw [if_neg (show ¬(("POST" : String) = "POST" ∧ R = "/sessions")
                from fun hx => hRs hx.2),
              if_neg (show ¬(("POST" : String) = "POST" ∧ R = "/users")
                from fun hx => hRu hx.2),
              if_neg (show ¬(("POST" : String) = "POST" ∧ R = "/trainees")
                from fun hx => hRt hx.2),
              if_neg (show ¬(("POST" : String) = "POST" ∧ R = "/sessions")
                from fun hx => hRs hx.2)] at hnum ⊢
            simp only [List.nil_append] at hnum ⊢
            rcases hall.1 with he | ⟨codes, hG, heqc⟩
            · rw [he]; exact List.Pairwise.nil
            · rw [heqc] at hnum ⊢
              exact pairwise_goodCodes hG hnum
    · rw [if_neg (show ¬(M = "POST" ∧ R = "/sessions") from fun hx => hM hx.1),
        if_neg (show ¬(M = "POST" ∧ R = "/users") from fun hx => hM hx.1),
        if_neg (show ¬(M = "POST" ∧ R = "/trainees") from fun hx => hM hx.1),
        if_neg (show ¬(M = "POST" ∧ R = "/sessions") from fun hx => hM hx.1)] at hnum ⊢
      simp only [List.nil_append] at hnum ⊢
      rcases hall.1 with he | ⟨codes, hG, heqc⟩
      · rw [he]; exact List.Pairwise.nil
      · rw [heqc] at hnum ⊢
        exact pairwise_goodCodes hG hnum

def docC4 : Json :=
  .obj [("paths", .obj [("/users", .obj [("post", .obj [("responses",
    .obj [("201", .obj []), ("409", .obj []), ("500", .obj [])])])])])]

def pathsC4 : JsVal := JsVal.oget (some docC4) "paths"

def linesC4 : List EmitLine := (generateTestLines docC4 none "http://localhost:3000").getD []

theorem status_code_ordering_witness :
    generateTestLines docC4 none "http://localhost:3000" = some linesC4
    ∧ testCodesFor linesC4 "POST" "/users" = ["409", "201"]
    ∧ (testCodesFor linesC4 "POST" "/users").Pairwise codeOrdered := by
  have h := status_code_ordering docC4 none "http://localhost:3000" pathsC4 linesC4 rfl rfl
  refine ⟨rfl, rfl, ?_⟩
  refine h.2 (by decide) ?_ "POST" "/users" (by decide)
  intro it hit
  have hpl : pathListSorted pathsC4 = [("/users", Json.obj [("post", Json.obj [("responses",
      Json.obj [("201", Json.obj []), ("409", Json.obj []), ("500", Json.obj [])])])])] := rfl
  rw [hpl] at hit
  obtain rfl := List.mem_singleton.mp hit
  intro ents hents
  rw [show jsEntries? (some (Json.obj [("post", Json.obj [("responses",
      Json.obj [("201", Json.obj []), ("409", Json.obj []), ("500", Json.obj [])])])]))
    = some [("post", Json.obj [("responses",
      Json.obj [("201", Json.obj []), ("409", Json.obj []), ("500", Json.obj [])])])]
    from rfl] at hents
  cases Option.some.inj hents
  decide

end ApiValidator
